import Mathlib

/-!
Verification of the hybrid vehicle-search and fact-checking core of the
IA-Sales-Agent repository.

The Python modules `src/search/engine.py`, `src/tools/fact_checker.py` and
`src/tools/catalog_search.py` are shallowly embedded below: floats are
modelled as rationals, Python dicts keyed by `stock_id` as association
lists that preserve insertion order, and fallible calls as `Except`.
External retrieval backends (the vector store, the BM25 retriever and the
rapidfuzz matcher) are treated as inputs: the embedded `search` takes the
raw result lists those backends would return.
-/

namespace Engine

/-- A searchable document: `stock_id` from its metadata, the optional
`"score"` metadata entry read by `metadata.get("score", 0)`, and the page
content. -/
structure SDoc where
  stock_id : Nat
  meta_score : Option ℚ
  page_content : String
deriving DecidableEq

/-- Entry of `vehicles_metadata`, paired with the fuzzy corpus text. -/
structure FuzzyMeta where
  stock_id : Nat
  text : String
deriving DecidableEq

/-- One value of the `combined_scores` dict built by `_combine_scores`. -/
structure ScoreEntry where
  stock_id : Nat
  vehicle : SDoc
  vector_score : ℚ
  bm25_score : ℚ
  fuzzy_score : ℚ
  combined_score : ℚ
deriving DecidableEq

/-- Minimum of `a :: l` (Python `min(scores)`). -/
def listMin : ℚ → List ℚ → ℚ
| a, [] => a
| a, x :: xs => listMin (min a x) xs

/-- Maximum of `a :: l` (Python `max(scores)`). -/
def listMax : ℚ → List ℚ → ℚ
| a, [] => a
| a, x :: xs => listMax (max a x) xs

/-- `VehicleSearchEngine._normalize_scores`: min-max normalization to the
0-1 range; an all-equal list maps to all `1.0`, the empty list to `[]`. -/
def normalize_scores : List ℚ → List ℚ
| [] => []
| s :: rest =>
  let min_score := listMin s rest
  let max_score := listMax s rest
  if max_score = min_score then
    List.replicate (s :: rest).length 1
  else
    (s :: rest).map (fun score => (score - min_score) / (max_score - min_score))

/-- `combined_scores[stock_id] = e`: replace the entry with this key, or
append a fresh one (insertion-ordered dict assignment). -/
def dictSet : List ScoreEntry → ScoreEntry → List ScoreEntry
| [], e => [e]
| x :: xs, e => if x.stock_id = e.stock_id then e :: xs else x :: dictSet xs e

/-- Mutate the entry keyed `sid` with `f` if present, else append `dflt`
(the `if stock_id in combined_scores ... else ...` update pattern). -/
def dictModify : List ScoreEntry → Nat → (ScoreEntry → ScoreEntry) → ScoreEntry → List ScoreEntry
| [], _, _, dflt => [dflt]
| x :: xs, sid, f, dflt =>
  if x.stock_id = sid then f x :: xs else x :: dictModify xs sid f dflt

/-- First block of `_combine_scores`: seed the `combined_scores` dict from
the vector results with normalized vector scores and zeroed other
components. -/
def processVector (vector_results : List (SDoc × ℚ)) : List ScoreEntry :=
  if vector_results = [] then [] else
    let normalized_vector := normalize_scores (vector_results.map (fun r => r.2))
    (vector_results.zip normalized_vector).foldl
      (fun acc p => dictSet acc ⟨p.1.1.stock_id, p.1.1, p.2, 0, 0, 0⟩) []

/-- Second block of `_combine_scores`: fold the BM25 results in, setting
`bm25_score` on existing entries and inserting fresh entries otherwise.
Raw BM25 scores are `metadata.get("score", 0)`. -/
def processBm25 (acc : List ScoreEntry) (bm25_results : List SDoc) : List ScoreEntry :=
  if bm25_results = [] then acc else
    let normalized_bm25 := normalize_scores (bm25_results.map (fun d => d.meta_score.getD 0))
    (bm25_results.zip normalized_bm25).foldl
      (fun acc p =>
        dictModify acc p.1.stock_id (fun e => { e with bm25_score := p.2 })
          ⟨p.1.stock_id, p.1, 0, p.2, 0, 0⟩) acc

/-- Third block of `_combine_scores`: fold the fuzzy results in; fresh
entries get a mock document built from the match text and metadata. -/
def processFuzzy (acc : List ScoreEntry) (fuzzy_results : List (String × ℚ × FuzzyMeta)) :
    List ScoreEntry :=
  if fuzzy_results = [] then acc else
    let normalized_fuzzy := normalize_scores (fuzzy_results.map (fun r => r.2.1))
    (fuzzy_results.zip normalized_fuzzy).foldl
      (fun acc p =>
        dictModify acc p.1.2.2.stock_id (fun e => { e with fuzzy_score := p.2 })
          ⟨p.1.2.2.stock_id, ⟨p.1.2.2.stock_id, none, p.1.1⟩, 0, 0, p.2, 0⟩) acc

/-- `VehicleSearchEngine._combine_scores`: merge the three per-method
result lists into one scored candidate list (dict insertion order) and
set each entry's combined score, weighting vector 0.5, BM25 0.25 and
fuzzy 0.25. -/
def combine_scores (vector_results : List (SDoc × ℚ)) (bm25_results : List SDoc)
    (fuzzy_results : List (String × ℚ × FuzzyMeta)) : List ScoreEntry :=
  (processFuzzy (processBm25 (processVector vector_results) bm25_results)
      fuzzy_results).map (fun e =>
    { e with combined_score :=
        0.5 * e.vector_score + 0.25 * e.bm25_score + 0.25 * e.fuzzy_score })

/-- Body of `VehicleSearchEngine.search` past the index guard: convert
vector distances to similarities via `1 - score`, pair each fuzzy match
with `vehicles_metadata[i]` for its enumeration index `i`, fuse, sort by
combined score descending (Python's stable `sorted` with `reverse=True`)
and return the top `k`. -/
def search_results (has_vector has_bm25 : Bool) (vehicles_meta : List FuzzyMeta)
    (vector_docs : List (SDoc × ℚ)) (bm25_docs : List SDoc)
    (fuzzy_matches : List (String × ℚ × Nat)) (k : Nat) : List ScoreEntry :=
  let vector_results :=
    if has_vector then vector_docs.map (fun p => (p.1, 1 - p.2)) else []
  let bm25_results := if has_bm25 then bm25_docs else []
  let fuzzy_results :=
    if vehicles_meta = [] then [] else
      fuzzy_matches.enum.map
        (fun p => (p.2.1, p.2.2.1, vehicles_meta.getD p.1 ⟨0, ""⟩))
  let combined_results := combine_scores vector_results bm25_results fuzzy_results
  let sorted_results := combined_results.mergeSort
      (fun a b => decide (b.combined_score ≤ a.combined_score))
  sorted_results.take k

/-- `VehicleSearchEngine.search`: raise on an un-built index
(`vector_store` or `bm25_retriever` missing), else run the hybrid
pipeline.  The raw backend outputs (`vector_docs`, `bm25_docs`,
`fuzzy_matches`) are inputs; `has_vector`/`has_bm25` say whether
`vector_store`/`bm25_retriever` are non-`None`. -/
def search (has_vector has_bm25 : Bool) (vehicles_meta : List FuzzyMeta)
    (vector_docs : List (SDoc × ℚ)) (bm25_docs : List SDoc)
    (fuzzy_matches : List (String × ℚ × Nat)) (k : Nat) :
    Except String (List ScoreEntry) :=
  if !has_vector || !has_bm25 then
    Except.error "Search index not built. Call build_index() first."
  else
    Except.ok (search_results has_vector has_bm25 vehicles_meta vector_docs
      bm25_docs fuzzy_matches k)

lemma listMin_le_init (a : ℚ) (l : List ℚ) : listMin a l ≤ a := by
  induction l generalizing a with
  | nil => simp [listMin]
  | cons x xs ih =>
    calc listMin a (x :: xs) = listMin (min a x) xs := rfl
    _ ≤ min a x := ih _
    _ ≤ a := min_le_left _ _

lemma listMin_le_mem (a : ℚ) {l : List ℚ} {x : ℚ} (hx : x ∈ l) : listMin a l ≤ x := by
  induction l generalizing a with
  | nil => simp at hx
  | cons y ys ih =>
    rcases List.mem_cons.mp hx with h | h
    · subst h
      calc listMin a (x :: ys) = listMin (min a x) ys := rfl
      _ ≤ min a x := listMin_le_init _ _
      _ ≤ x := min_le_right _ _
    · exact ih (min a y) h

lemma le_listMax_init (a : ℚ) (l : List ℚ) : a ≤ listMax a l := by
  induction l generalizing a with
  | nil => simp [listMax]
  | cons x xs ih =>
    calc a ≤ max a x := le_max_left _ _
    _ ≤ listMax (max a x) xs := ih _
    _ = listMax a (x :: xs) := rfl

lemma le_listMax_mem (a : ℚ) {l : List ℚ} {x : ℚ} (hx : x ∈ l) : x ≤ listMax a l := by
  induction l generalizing a with
  | nil => simp at hx
  | cons y ys ih =>
    rcases List.mem_cons.mp hx with h | h
    · subst h
      calc x ≤ max a x := le_max_right _ _
      _ ≤ listMax (max a x) ys := le_listMax_init _ _
    · exact ih (max a y) h

lemma listMin_const (a : ℚ) {l : List ℚ} (h : ∀ x ∈ l, x = a) : listMin a l = a := by
  induction l with
  | nil => rfl
  | cons x xs ih =>
    have hx : x = a := h x (List.mem_cons_self _ _)
    subst hx
    have : listMin (min x x) xs = listMin x xs := by simp
    rw [listMin, this]
    exact ih (fun y hy => h y (List.mem_cons_of_mem _ hy))

lemma listMax_const (a : ℚ) {l : List ℚ} (h : ∀ x ∈ l, x = a) : listMax a l = a := by
  induction l with
  | nil => rfl
  | cons x xs ih =>
    have hx : x = a := h x (List.mem_cons_self _ _)
    subst hx
    have : listMax (max x x) xs = listMax x xs := by simp
    rw [listMax, this]
    exact ih (fun y hy => h y (List.mem_cons_of_mem _ hy))

/-- Every normalized score lies in the unit interval. -/
lemma normalize_scores_mem_unit {l : List ℚ} {x : ℚ}
    (hx : x ∈ normalize_scores l) : 0 ≤ x ∧ x ≤ 1 := by
  cases l with
  | nil => simp [normalize_scores] at hx
  | cons s rest =>
    rw [normalize_scores] at hx
    by_cases h : listMax s rest = listMin s rest
    · rw [if_pos h] at hx
      have := List.eq_of_mem_replicate hx
      subst this
      exact ⟨zero_le_one, le_refl 1⟩
    · rw [if_neg h] at hx
      rcases List.mem_map.mp hx with ⟨y, hy, rfl⟩
      have hlo : listMin s rest ≤ y := by
        rcases List.mem_cons.mp hy with h1 | h1
        · subst h1; exact listMin_le_init _ _
        · exact listMin_le_mem _ h1
      have hhi : y ≤ listMax s rest := by
        rcases List.mem_cons.mp hy with h1 | h1
        · subst h1; exact le_listMax_init _ _
        · exact le_listMax_mem _ h1
      have hle : listMin s rest ≤ listMax s rest := le_trans hlo hhi
      have hpos : 0 < listMax s rest - listMin s rest := by
        rcases lt_or_eq_of_le hle with h1 | h1
        · linarith
        · exact absurd h1.symm h
      constructor
      · apply div_nonneg _ (le_of_lt hpos)
        linarith
      · rw [div_le_one hpos]
        linarith

/-- An all-equal score list normalizes to all ones. -/
lemma normalize_scores_const {l : List ℚ} {c : ℚ} (hne : l ≠ [])
    (h : ∀ x ∈ l, x = c) : normalize_scores l = List.replicate l.length 1 := by
  cases l with
  | nil => exact absurd rfl hne
  | cons s rest =>
    have hs : s = c := h s (List.mem_cons_self _ _)
    subst hs
    have hrest : ∀ x ∈ rest, x = s := fun x hx => h x (List.mem_cons_of_mem _ hx)
    rw [normalize_scores]
    have hmin : listMin s rest = s := listMin_const _ hrest
    have hmax : listMax s rest = s := listMax_const _ hrest
    rw [hmin, hmax, if_pos rfl]

lemma mem_dictSet {l : List ScoreEntry} {e x : ScoreEntry}
    (hx : x ∈ dictSet l e) : x = e ∨ x ∈ l := by
  induction l with
  | nil => simpa [dictSet] using hx
  | cons y ys ih =>
    rw [dictSet] at hx
    by_cases h : y.stock_id = e.stock_id
    · rw [if_pos h] at hx
      rcases List.mem_cons.mp hx with h1 | h1
      · exact Or.inl h1
      · exact Or.inr (List.mem_cons_of_mem _ h1)
    · rw [if_neg h] at hx
      rcases List.mem_cons.mp hx with h1 | h1
      · exact Or.inr (h1 ▸ List.mem_cons_self _ _)
      · rcases ih h1 with h2 | h2
        · exact Or.inl h2
        · exact Or.inr (List.mem_cons_of_mem _ h2)

lemma mem_dictModify {l : List ScoreEntry} {sid : Nat}
    {f : ScoreEntry → ScoreEntry} {dflt x : ScoreEntry}
    (hx : x ∈ dictModify l sid f dflt) :
    x ∈ l ∨ x = dflt ∨ ∃ y ∈ l, y.stock_id = sid ∧ x = f y := by
  induction l with
  | nil =>
    rw [dictModify] at hx
    rcases List.mem_singleton.mp hx with rfl
    exact Or.inr (Or.inl rfl)
  | cons y ys ih =>
    rw [dictModify] at hx
    by_cases h : y.stock_id = sid
    · rw [if_pos h] at hx
      rcases List.mem_cons.mp hx with h1 | h1
      · exact Or.inr (Or.inr ⟨y, List.mem_cons_self _ _, h, h1⟩)
      · exact Or.inl (List.mem_cons_of_mem _ h1)
    · rw [if_neg h] at hx
      rcases List.mem_cons.mp hx with h1 | h1
      · exact Or.inl (h1 ▸ List.mem_cons_self _ _)
      · rcases ih h1 with h2 | h2 | ⟨z, hz, hzs, hzf⟩
        · exact Or.inl (List.mem_cons_of_mem _ h2)
        · exact Or.inr (Or.inl h2)
        · exact Or.inr (Or.inr ⟨z, List.mem_cons_of_mem _ hz, hzs, hzf⟩)

/-- Invariant propagation through a `dictSet` fold. -/
lemma foldl_dictSet_prop {β : Type} (P : ScoreEntry → Prop) (mk : β → ScoreEntry)
    (l : List β) (acc : List ScoreEntry)
    (hacc : ∀ x ∈ acc, P x) (hmk : ∀ b ∈ l, P (mk b)) :
    ∀ x ∈ l.foldl (fun a b => dictSet a (mk b)) acc, P x := by
  induction l generalizing acc with
  | nil => simpa using hacc
  | cons b bs ih =>
    intro x hx
    refine ih (dictSet acc (mk b)) ?_ ?_ x hx
    · intro y hy
      rcases mem_dictSet hy with h1 | h1
      · exact h1 ▸ hmk b (List.mem_cons_self _ _)
      · exact hacc y h1
    · intro b' hb'
      exact hmk b' (List.mem_cons_of_mem _ hb')

/-- Invariant propagation through a `dictModify` fold: defaults satisfy
the invariant, and `f` preserves it on entries with the matching key. -/
lemma foldl_dictModify_prop {β : Type} (P : ScoreEntry → Prop) (sid : β → Nat)
    (f : β → ScoreEntry → ScoreEntry) (dflt : β → ScoreEntry)
    (l : List β) (acc : List ScoreEntry)
    (hacc : ∀ x ∈ acc, P x) (hdflt : ∀ b ∈ l, P (dflt b))
    (hf : ∀ b ∈ l, ∀ y, P y → y.stock_id = sid b → P (f b y)) :
    ∀ x ∈ l.foldl (fun a b => dictModify a (sid b) (f b) (dflt b)) acc, P x := by
  induction l generalizing acc with
  | nil => simpa using hacc
  | cons b bs ih =>
    intro x hx
    refine ih (dictModify acc (sid b) (f b) (dflt b)) ?_ ?_ ?_ x hx
    · intro y hy
      rcases mem_dictModify hy with h1 | h1 | ⟨z, hz, hzs, hzf⟩
      · exact hacc y h1
      · exact h1 ▸ hdflt b (List.mem_cons_self _ _)
      · exact hzf ▸ hf b (List.mem_cons_self _ _) z (hacc z hz) hzs
    · intro b' hb'
      exact hdflt b' (List.mem_cons_of_mem _ hb')
    · intro b' hb'
      exact hf b' (List.mem_cons_of_mem _ hb')

/-- Entries seeded from the vector results carry a vector-result key and
zeroed BM25/fuzzy components. -/
lemma processVector_inv (vector_results : List (SDoc × ℚ)) :
    ∀ x ∈ processVector vector_results,
      x.stock_id ∈ vector_results.map (fun r => r.1.stock_id) ∧
      x.bm25_score = 0 ∧ x.fuzzy_score = 0 := by
  intro x hx
  rw [processVector] at hx
  by_cases h : vector_results = []
  · rw [if_pos h] at hx
    simp at hx
  · rw [if_neg h] at hx
    refine foldl_dictSet_prop
      (fun x => x.stock_id ∈ vector_results.map (fun r => r.1.stock_id) ∧
        x.bm25_score = 0 ∧ x.fuzzy_score = 0)
      (fun p : (SDoc × ℚ) × ℚ => ⟨p.1.1.stock_id, p.1.1, p.2, 0, 0, 0⟩)
      _ _ (by simp) ?_ x hx
    rintro ⟨⟨d, s⟩, ns⟩ hb
    have hdv : (d, s) ∈ vector_results := (List.of_mem_zip hb).1
    exact ⟨List.mem_map.mpr ⟨(d, s), hdv, rfl⟩, rfl, rfl⟩

/-- Invariant transport through the BM25 block. -/
lemma processBm25_pres (P : ScoreEntry → Prop) (acc : List ScoreEntry)
    (bm25_results : List SDoc)
    (hacc : ∀ x ∈ acc, P x)
    (hdflt : ∀ d ∈ bm25_results, ∀ q : ℚ, P ⟨d.stock_id, d, 0, q, 0, 0⟩)
    (hupd : ∀ d ∈ bm25_results, ∀ (q : ℚ) (y : ScoreEntry), P y →
      y.stock_id = d.stock_id → P { y with bm25_score := q }) :
    ∀ x ∈ processBm25 acc bm25_results, P x := by
  intro x hx
  rw [processBm25] at hx
  by_cases h : bm25_results = []
  · rw [if_pos h] at hx
    exact hacc x hx
  · rw [if_neg h] at hx
    refine foldl_dictModify_prop P (fun p : SDoc × ℚ => p.1.stock_id)
      (fun (p : SDoc × ℚ) e => { e with bm25_score := p.2 })
      (fun p : SDoc × ℚ => ⟨p.1.stock_id, p.1, 0, p.2, 0, 0⟩) _ acc hacc ?_ ?_ x hx
    · rintro ⟨d, q⟩ hb
      exact hdflt d (List.of_mem_zip hb).1 q
    · rintro ⟨d, q⟩ hb y hy hsid
      exact hupd d (List.of_mem_zip hb).1 q y hy hsid

/-- Invariant transport through the fuzzy block. -/
lemma processFuzzy_pres (P : ScoreEntry → Prop) (acc : List ScoreEntry)
    (fuzzy_results : List (String × ℚ × FuzzyMeta))
    (hacc : ∀ x ∈ acc, P x)
    (hdflt : ∀ r ∈ fuzzy_results, ∀ q : ℚ,
      P ⟨r.2.2.stock_id, ⟨r.2.2.stock_id, none, r.1⟩, 0, 0, q, 0⟩)
    (hupd : ∀ r ∈ fuzzy_results, ∀ (q : ℚ) (y : ScoreEntry), P y →
      y.stock_id = r.2.2.stock_id → P { y with fuzzy_score := q }) :
    ∀ x ∈ processFuzzy acc fuzzy_results, P x := by
  intro x hx
  rw [processFuzzy] at hx
  by_cases h : fuzzy_results = []
  · rw [if_pos h] at hx
    exact hacc x hx
  · rw [if_neg h] at hx
    refine foldl_dictModify_prop P (fun p : (String × ℚ × FuzzyMeta) × ℚ => p.1.2.2.stock_id)
      (fun (p : (String × ℚ × FuzzyMeta) × ℚ) e => { e with fuzzy_score := p.2 })
      (fun p : (String × ℚ × FuzzyMeta) × ℚ =>
        ⟨p.1.2.2.stock_id, ⟨p.1.2.2.stock_id, none, p.1.1⟩, 0, 0, p.2, 0⟩)
      _ acc hacc ?_ ?_ x hx
    · rintro ⟨⟨t, s, m⟩, q⟩ hb
      exact hdflt (t, s, m) (List.of_mem_zip hb).1 q
    · rintro ⟨⟨t, s, m⟩, q⟩ hb y hy hsid
      exact hupd (t, s, m) (List.of_mem_zip hb).1 q y hy hsid

/-- After fusion, a candidate that a given method did not return has that
method's component equal to `0.0`. -/
lemma combine_scores_component_zero (vector_results : List (SDoc × ℚ))
    (bm25_results : List SDoc) (fuzzy_results : List (String × ℚ × FuzzyMeta)) :
    ∀ e ∈ combine_scores vector_results bm25_results fuzzy_results,
      (e.stock_id ∉ vector_results.map (fun r => r.1.stock_id) → e.vector_score = 0) ∧
      (e.stock_id ∉ bm25_results.map (fun d => d.stock_id) → e.bm25_score = 0) ∧
      (e.stock_id ∉ fuzzy_results.map (fun r => r.2.2.stock_id) → e.fuzzy_score = 0) := by
  intro e he
  rcases List.mem_map.mp he with ⟨y, hy, rfl⟩
  have hvec : y.stock_id ∉ vector_results.map (fun r => r.1.stock_id) →
      y.vector_score = 0 := by
    refine processFuzzy_pres
      (fun x => x.stock_id ∉ vector_results.map (fun r => r.1.stock_id) →
        x.vector_score = 0) _ _ ?_ ?_ ?_ y hy
    · refine processBm25_pres _ _ _ ?_ ?_ ?_
      · intro x hx hnot
        exact absurd (processVector_inv _ x hx).1 hnot
      · intro d _ q _
        rfl
      · intro d _ q z hz hsid hnot
        exact hz hnot
    · intro r _ q _
      rfl
    · intro r _ q z hz hsid hnot
      exact hz hnot
  have hbm : y.stock_id ∉ bm25_results.map (fun d => d.stock_id) →
      y.bm25_score = 0 := by
    refine processFuzzy_pres
      (fun x => x.stock_id ∉ bm25_results.map (fun d => d.stock_id) →
        x.bm25_score = 0) _ _ ?_ ?_ ?_ y hy
    · refine processBm25_pres _ _ _ ?_ ?_ ?_
      · intro x hx hnot
        exact (processVector_inv _ x hx).2.1
      · intro d hd q hnot
        exact absurd (List.mem_map.mpr ⟨d, hd, rfl⟩) hnot
      · intro d hd q z hz hsid hnot
        exact absurd (hsid ▸ List.mem_map.mpr ⟨d, hd, rfl⟩) hnot
    · intro r _ q _
      rfl
    · intro r _ q z hz hsid hnot
      exact hz hnot
  have hfz : y.stock_id ∉ fuzzy_results.map (fun r => r.2.2.stock_id) →
      y.fuzzy_score = 0 := by
    refine processFuzzy_pres
      (fun x => x.stock_id ∉ fuzzy_results.map (fun r => r.2.2.stock_id) →
        x.fuzzy_score = 0) _ _ ?_ ?_ ?_ y hy
    · have hzero : ∀ x ∈ processBm25 (processVector vector_results) bm25_results,
          x.fuzzy_score = 0 := by
        refine processBm25_pres _ _ _ ?_ ?_ ?_
        · intro x hx
          exact (processVector_inv _ x hx).2.2
        · intro d _ q
          rfl
        · intro d _ q z hz hsid
          exact hz
      intro x hx _
      exact hzero x hx
    · intro r hr q hnot
      exact absurd (List.mem_map.mpr ⟨r, hr, rfl⟩) hnot
    · intro r hr q z hz hsid hnot
      exact absurd (hsid ▸ List.mem_map.mpr ⟨r, hr, rfl⟩) hnot
  exact ⟨hvec, hbm, hfz⟩

/-- Every fused candidate's combined score is the exact 0.5/0.25/0.25
weighted sum of its components. -/
lemma combine_scores_formula (vector_results : List (SDoc × ℚ))
    (bm25_results : List SDoc) (fuzzy_results : List (String × ℚ × FuzzyMeta)) :
    ∀ e ∈ combine_scores vector_results bm25_results fuzzy_results,
      e.combined_score =
        0.5 * e.vector_score + 0.25 * e.bm25_score + 0.25 * e.fuzzy_score := by
  intro e he
  rcases List.mem_map.mp he with ⟨y, _, rfl⟩
  rfl

end Engine

/-- C1: for every hybrid search call that returns a result list, each
merged candidate's combined score is exactly
`0.5 * vector + 0.25 * bm25 + 0.25 * fuzzy`, the list is sorted
non-increasing in combined score, and it has at most `k` entries. -/
theorem C1_combined_score_formula_and_ranking
    (has_vector has_bm25 : Bool) (vehicles_meta : List Engine.FuzzyMeta)
    (vector_docs : List (Engine.SDoc × ℚ)) (bm25_docs : List Engine.SDoc)
    (fuzzy_matches : List (String × ℚ × Nat)) (k : Nat)
    (res : List Engine.ScoreEntry)
    (h : Engine.search has_vector has_bm25 vehicles_meta vector_docs bm25_docs
      fuzzy_matches k = Except.ok res) :
    (∀ e ∈ res, e.combined_score =
      0.5 * e.vector_score + 0.25 * e.bm25_score + 0.25 * e.fuzzy_score) ∧
    List.Pairwise (fun a b : Engine.ScoreEntry =>
      b.combined_score ≤ a.combined_score) res ∧
    res.length ≤ k := by
  unfold Engine.search at h
  split at h
  · exact Except.noConfusion h
  · injection h with hres
    subst hres
    have hdef : Engine.search_results has_vector has_bm25 vehicles_meta vector_docs
        bm25_docs fuzzy_matches k =
      ((Engine.combine_scores
          (if has_vector then vector_docs.map (fun p => (p.1, 1 - p.2)) else [])
          (if has_bm25 then bm25_docs else [])
          (if vehicles_meta = [] then [] else
            fuzzy_matches.enum.map
              (fun p => (p.2.1, p.2.2.1, vehicles_meta.getD p.1 ⟨0, ""⟩)))).mergeSort
        (fun a b => decide (b.combined_score ≤ a.combined_score))).take k := rfl
    rw [hdef]
    refine ⟨?_, ?_, ?_⟩
    · intro e he
      have h1 := (List.take_sublist _ _).subset he
      have h2 := (List.mergeSort_perm _ _).mem_iff.mp h1
      exact Engine.combine_scores_formula _ _ _ e h2
    · have htrans : ∀ a b c : Engine.ScoreEntry,
          decide (b.combined_score ≤ a.combined_score) = true →
          decide (c.combined_score ≤ b.combined_score) = true →
          decide (c.combined_score ≤ a.combined_score) = true := by
        intro a b c hab hbc
        exact decide_eq_true (le_trans (of_decide_eq_true hbc) (of_decide_eq_true hab))
      have htotal : ∀ a b : Engine.ScoreEntry,
          (decide (b.combined_score ≤ a.combined_score) ||
            decide (a.combined_score ≤ b.combined_score)) = true := by
        intro a b
        rcases le_total b.combined_score a.combined_score with h1 | h1
        · simp [h1]
        · simp [h1]
      have hs := List.sorted_mergeSort htrans htotal
        (Engine.combine_scores
          (if has_vector then vector_docs.map (fun p => (p.1, 1 - p.2)) else [])
          (if has_bm25 then bm25_docs else [])
          (if vehicles_meta = [] then [] else
            fuzzy_matches.enum.map
              (fun p => (p.2.1, p.2.2.1, vehicles_meta.getD p.1 ⟨0, ""⟩))))
      have hs' := hs.imp (fun hab => of_decide_eq_true hab)
      exact hs'.sublist (List.take_sublist _ _)
    · rw [List.length_take]
      exact min_le_left _ _

/-- Witness for C1 at a concrete call with both indices built. -/
theorem C1_witness :
    (∀ e ∈ ([] : List Engine.ScoreEntry), e.combined_score =
      0.5 * e.vector_score + 0.25 * e.bm25_score + 0.25 * e.fuzzy_score) ∧
    List.Pairwise (fun a b : Engine.ScoreEntry =>
      b.combined_score ≤ a.combined_score) ([] : List Engine.ScoreEntry) ∧
    ([] : List Engine.ScoreEntry).length ≤ 5 :=
  C1_combined_score_formula_and_ranking true true [] [] [] [] 5 [] (by
    have hnil : Engine.combine_scores [] [] [] = ([] : List Engine.ScoreEntry) := rfl
    simp [Engine.search, Engine.search_results, hnil, List.mergeSort_nil])

/-- C3: calling `search` before the index is built (the vector store or
the BM25 retriever is missing) yields the explicit "index not built"
error, for every query input and every `k`, never a result list. -/
theorem C3_search_before_build_is_error
    (has_vector has_bm25 : Bool) (vehicles_meta : List Engine.FuzzyMeta)
    (vector_docs : List (Engine.SDoc × ℚ)) (bm25_docs : List Engine.SDoc)
    (fuzzy_matches : List (String × ℚ × Nat)) (k : Nat)
    (h : has_vector = false ∨ has_bm25 = false) :
    Engine.search has_vector has_bm25 vehicles_meta vector_docs bm25_docs
      fuzzy_matches k =
      Except.error "Search index not built. Call build_index() first." := by
  rcases h with h | h <;> subst h <;> simp [Engine.search]

/-- Witness for C3 on a freshly constructed engine (no indices). -/
theorem C3_witness :
    Engine.search false false [] [] [] [] 3 =
      Except.error "Search index not built. Call build_index() first." :=
  C3_search_before_build_is_error false false [] [] [] [] 3 (Or.inl rfl)

/-- C4: min-max normalization of a non-empty raw score list stays in
`[0,1]` and maps an all-equal list to all `1.0`; and any merged candidate
missing from a method's result list has that method's component score
exactly `0.0`. -/
theorem C4_normalization_bounds_and_zero_defaults
    (l : List ℚ) (c : ℚ) (hl : l ≠ [])
    (vector_results : List (Engine.SDoc × ℚ)) (bm25_results : List Engine.SDoc)
    (fuzzy_results : List (String × ℚ × Engine.FuzzyMeta)) :
    (∀ x ∈ Engine.normalize_scores l, 0 ≤ x ∧ x ≤ 1) ∧
    ((∀ x ∈ l, x = c) →
      Engine.normalize_scores l = List.replicate l.length 1) ∧
    (∀ e ∈ Engine.combine_scores vector_results bm25_results fuzzy_results,
      (e.stock_id ∉ vector_results.map (fun r => r.1.stock_id) →
        e.vector_score = 0) ∧
      (e.stock_id ∉ bm25_results.map (fun d => d.stock_id) →
        e.bm25_score = 0) ∧
      (e.stock_id ∉ fuzzy_results.map (fun r => r.2.2.stock_id) →
        e.fuzzy_score = 0)) := by
  refine ⟨?_, ?_, ?_⟩
  · intro x hx
    exact Engine.normalize_scores_mem_unit hx
  · intro hconst
    exact Engine.normalize_scores_const hl hconst
  · exact Engine.combine_scores_component_zero _ _ _

/-- Witness for C4 on the concrete score list `[2, 2]` and empty method
results. -/
theorem C4_witness :
    (∀ x ∈ Engine.normalize_scores [2, 2], 0 ≤ x ∧ x ≤ 1) ∧
    ((∀ x ∈ ([2, 2] : List ℚ), x = 2) →
      Engine.normalize_scores [2, 2] = List.replicate ([2, 2] : List ℚ).length 1) ∧
    (∀ e ∈ Engine.combine_scores [] [] [],
      (e.stock_id ∉ ([] : List (Engine.SDoc × ℚ)).map (fun r => r.1.stock_id) →
        e.vector_score = 0) ∧
      (e.stock_id ∉ ([] : List Engine.SDoc).map (fun d => d.stock_id) →
        e.bm25_score = 0) ∧
      (e.stock_id ∉ ([] : List (String × ℚ × Engine.FuzzyMeta)).map
          (fun r => r.2.2.stock_id) →
        e.fuzzy_score = 0)) :=
  C4_normalization_bounds_and_zero_defaults [2, 2] 2 (by decide) [] [] []

namespace FactChecker

/-- Value carried by an extracted claim: integers for stock ids and
mileage, a decimal for prices, and a make/model/year triple for vehicle
mentions. -/
inductive ClaimValue where
  | nat (n : Nat)
  | price (q : ℚ)
  | vehicle (make model : String) (year : Nat)
deriving DecidableEq

/-- One claim dict produced by `FactChecker.extract_claims`. -/
structure Claim where
  ctype : String
  value : ClaimValue
  text_position : Nat
  original_text : String
deriving DecidableEq

/-- Python `\d` on ASCII text. -/
def isDigitPy (c : Char) : Bool := decide (48 ≤ c.toNat) && decide (c.toNat ≤ 57)

/-- Python `\s` on ASCII text: space, tab, newline, carriage return,
vertical tab, form feed. -/
def isSpacePy (c : Char) : Bool :=
  c = ' ' || c = '\t' || c = '\n' || c = '\r' || c = '\x0b' || c = '\x0c'

/-- Python `\w` on ASCII text. -/
def isWordChar (c : Char) : Bool := c.isAlpha || isDigitPy c || c = '_'

/-- Numeric value of a digit string. -/
def natOfDigits (ds : List Char) : Nat :=
  ds.foldl (fun n c => 10 * n + (c.toNat - 48)) 0

/-- Case-insensitive literal match (pattern given lowercase); returns the
remaining suffix on success (`re.IGNORECASE` literal semantics). -/
def matchLit : List Char → List Char → Option (List Char)
| [], cs => some cs
| _ :: _, [] => none
| p :: ps, c :: cs => if c.toLower = p then matchLit ps cs else none

/-- One scan step of `re.finditer`: attempt the anchored matcher at every
position, left to right; on a match consume its (positive) length,
otherwise advance one character.  The fuel is the remaining text length,
which suffices because every step consumes at least one character. -/
def findIterAux {A : Type} (matchAt : List Char → Option (Nat × A)) :
    Nat → List Char → Nat → List (Nat × A)
| 0, _, _ => []
| _ + 1, [], _ => []
| fuel + 1, c :: cs, pos =>
  match matchAt (c :: cs) with
  | some (len, a) =>
      (pos, a) :: findIterAux matchAt fuel ((c :: cs).drop (max len 1)) (pos + max len 1)
  | none => findIterAux matchAt fuel cs (pos + 1)

/-- `re.finditer(pattern, text)` for an anchored matcher. -/
def findIter {A : Type} (matchAt : List Char → Option (Nat × A)) (cs : List Char) :
    List (Nat × A) :=
  findIterAux matchAt cs.length cs 0

/-- Anchored match of `stock[\s#]*(\d{5,6})` (case-insensitive): the
literal, a run of whitespace or `#`, then five or six digits (greedy).
Returns total length, matched text and the numeric group. -/
def matchStockAt (cs : List Char) : Option (Nat × (String × Nat)) :=
  match matchLit ['s', 't', 'o', 'c', 'k'] cs with
  | none => none
  | some rest =>
    let sep := rest.takeWhile (fun c => isSpacePy c || c = '#')
    let rest2 := rest.drop sep.length
    let digits := rest2.takeWhile isDigitPy
    if 5 ≤ digits.length then
      let g := digits.take 6
      let len := 5 + sep.length + g.length
      some (len, (String.mk (cs.take len), natOfDigits g))
    else none

/-- Anchored match of the number group `[\d,]+\.?\d*`: a run of digits
and commas, an optional dot, then optional digits.  Returns consumed
length and the group characters. -/
def matchNumGroup (cs : List Char) : Option (Nat × List Char) :=
  let part1 := cs.takeWhile (fun c => isDigitPy c || c = ',')
  if part1 = [] then none else
  match cs.drop part1.length with
  | '.' :: rest2 =>
    let part2 := rest2.takeWhile isDigitPy
    some (part1.length + 1 + part2.length, part1 ++ '.' :: part2)
  | _ => some (part1.length, part1)

/-- Anchored match of the optional suffix `(?:k|mil|thousand|dollars?)?`
(case-insensitive, alternatives tried left to right); returns consumed
length. -/
def matchSuffixPrice1 (cs : List Char) : Nat :=
  match matchLit ['k'] cs with
  | some _ => 1
  | none =>
    match matchLit ['m', 'i', 'l'] cs with
    | some _ => 3
    | none =>
      match matchLit ['t', 'h', 'o', 'u', 's', 'a', 'n', 'd'] cs with
      | some _ => 8
      | none =>
        match matchLit ['d', 'o', 'l', 'l', 'a', 'r'] cs with
        | some rest =>
          match matchLit ['s'] rest with
          | some _ => 7
          | none => 6
        | none => 0

/-- Anchored match of the optional suffix `(?:k|mil|thousand)?`. -/
def matchSuffixPrice4 (cs : List Char) : Nat :=
  match matchLit ['k'] cs with
  | some _ => 1
  | none =>
    match matchLit ['m', 'i', 'l'] cs with
    | some _ => 3
    | none =>
      match matchLit ['t', 'h', 'o', 'u', 's', 'a', 'n', 'd'] cs with
      | some _ => 8
      | none => 0

/-- Anchored match of price pattern 1,
`\$?([\d,]+\.?\d*)\s*(?:k|mil|thousand|dollars?)?`.  Returns total
length, matched text and the number group. -/
def matchPrice1At (cs : List Char) : Option (Nat × (String × String)) :=
  let dollar := match cs with | '$' :: _ => 1 | _ => 0
  let rest := cs.drop dollar
  match matchNumGroup rest with
  | none => none
  | some (nlen, g) =>
    let rest2 := rest.drop nlen
    let ws := rest2.takeWhile isSpacePy
    let suff := matchSuffixPrice1 (rest2.drop ws.length)
    let len := dollar + nlen + ws.length + suff
    some (len, (String.mk (cs.take len), String.mk g))

/-- Anchored match of price patterns 2 and 3,
`price[:\s]*\$?([\d,]+\.?\d*)` and `cost[:\s]*\$?([\d,]+\.?\d*)`,
abstracted over the leading literal. -/
def matchLabelNumAt (lab : List Char) (cs : List Char) :
    Option (Nat × (String × String)) :=
  match matchLit lab cs with
  | none => none
  | some rest =>
    let sep := rest.takeWhile (fun c => c = ':' || isSpacePy c)
    let rest2 := rest.drop sep.length
    let dollar := match rest2 with | '$' :: _ => 1 | _ => 0
    let rest3 := rest2.drop dollar
    match matchNumGroup rest3 with
    | none => none
    | some (nlen, g) =>
      let len := lab.length + sep.length + dollar + nlen
      some (len, (String.mk (cs.take len), String.mk g))

/-- Greedy chunks of `(?:,\d{3})*`: maximal list of comma-plus-three-digit
chunks (each four characters). -/
def repChunks : Nat → List Char → List (List Char)
| 0, _ => []
| _ + 1, [] => []
| fuel + 1, c :: rest =>
  if c = ',' then
    let ds := rest.takeWhile isDigitPy
    if 3 ≤ ds.length then
      (',' :: ds.take 3) :: repChunks fuel (rest.drop 3)
    else []
  else []

/-- Backtracking over the rep count of `(?:,\d{3})*` followed by a tail
matcher, trying `r` chunks first, then fewer (regex gives back the last
repetition first).  Returns consumed length (group reps plus tail) and
the group characters contributed by the reps. -/
def tryRepsDown (tail : List Char → Option Nat) (cs : List Char)
    (chunks : List (List Char)) : Nat → Option (Nat × List Char)
| 0 =>
  match tail cs with
  | some tlen => some (tlen, [])
  | none => none
| r + 1 =>
  let used := chunks.take (r + 1)
  let glen := 4 * (r + 1)
  match tail (cs.drop glen) with
  | some tlen => some (glen + tlen, used.flatten)
  | none => tryRepsDown tail cs chunks r

/-- Backtracking match of `\d{1,3}(?:,\d{3})*` followed by a tail
matcher: the leading digit count is tried greedily from `n` down to 1,
and for each, the rep count greedily from maximal down to 0. -/
def tryD1 (tail : List Char → Option Nat) (cs : List Char) (run : List Char) :
    Nat → Option (Nat × List Char)
| 0 => none
| n + 1 =>
  let d1 := run.take (n + 1)
  let rest := cs.drop (n + 1)
  let chunks := repChunks rest.length rest
  match tryRepsDown tail rest chunks chunks.length with
  | some (clen, g2) => some ((n + 1) + clen, d1 ++ g2)
  | none => tryD1 tail cs run n

/-- Anchored match of `(\d{1,3}(?:,\d{3})*)` followed by a tail matcher
(with full regex backtracking).  Returns total consumed length and the
group characters. -/
def matchNumTail (tail : List Char → Option Nat) (cs : List Char) :
    Option (Nat × List Char) :=
  let run := cs.takeWhile isDigitPy
  if run = [] then none else tryD1 tail cs run (min 3 run.length)

/-- Tail `\s*<lit>` with an optional trailing `s` (case-insensitive),
e.g. `\s*km`, `\s*kilometers?`, `\s*miles?`. -/
def matchMileTail (lit : List Char) (optS : Bool) (cs : List Char) : Option Nat :=
  let ws := cs.takeWhile isSpacePy
  match matchLit lit (cs.drop ws.length) with
  | none => none
  | some rest =>
    if optS then
      match rest with
      | c :: _ => some (ws.length + lit.length + (if c.toLower = 's' then 1 else 0))
      | [] => some (ws.length + lit.length)
    else
      some (ws.length + lit.length)

/-- Anchored match of a mileage pattern
`(\d{1,3}(?:,\d{3})*)\s*<unit>`; returns total length, matched text and
the number group. -/
def matchMileNumAt (lit : List Char) (optS : Bool) (cs : List Char) :
    Option (Nat × (String × String)) :=
  match matchNumTail (matchMileTail lit optS) cs with
  | none => none
  | some (len, g) => some (len, (String.mk (cs.take len), String.mk g))

/-- Anchored match of `mileage[:\s]*(\d{1,3}(?:,\d{3})*)` (no tail, so
the number group is matched greedily with no backtracking). -/
def matchMileage3At (cs : List Char) : Option (Nat × (String × String)) :=
  match matchLit ['m', 'i', 'l', 'e', 'a', 'g', 'e'] cs with
  | none => none
  | some rest =>
    let sep := rest.takeWhile (fun c => c = ':' || isSpacePy c)
    let rest2 := rest.drop sep.length
    let run := rest2.takeWhile isDigitPy
    if run = [] then none else
    let d1 := run.take 3
    let rest3 := rest2.drop d1.length
    let chunks := repChunks rest3.length rest3
    let g := d1 ++ chunks.flatten
    let len := 7 + sep.length + d1.length + 4 * chunks.length
    some (len, (String.mk (cs.take len), String.mk g))

/-- Anchored match of `(\w+)\s+(\w+)\s+(20\d{2})`: two maximal word runs
separated by whitespace, then a year `20dd` anchored at the start of the
third word run.  Returns total length, matched text, and the case-folded
make/model with the numeric year. -/
def matchVehicleAt (cs : List Char) : Option (Nat × (String × String × String × Nat)) :=
  let w1 := cs.takeWhile isWordChar
  if w1 = [] then none else
  let r1 := cs.drop w1.length
  let s1 := r1.takeWhile isSpacePy
  if s1 = [] then none else
  let r2 := r1.drop s1.length
  let w2 := r2.takeWhile isWordChar
  if w2 = [] then none else
  let r3 := r2.drop w2.length
  let s2 := r3.takeWhile isSpacePy
  if s2 = [] then none else
  match r3.drop s2.length with
  | '2' :: '0' :: d3 :: d4 :: _ =>
    if isDigitPy d3 && isDigitPy d4 then
      let len := w1.length + s1.length + w2.length + s2.length + 4
      some (len, (String.mk (cs.take len),
        String.mk (w1.map Char.toLower), String.mk (w2.map Char.toLower),
        2000 + 10 * (d3.toNat - 48) + (d4.toNat - 48)))
    else none
  | _ => none

/-- Anchored match of price pattern 4,
`(\d{1,3}(?:,\d{3})*(?:\.\d{2})?)\s*(?:k|mil|thousand)?`: greedy with no
backtracking, since everything after the leading digits is optional. -/
def matchPrice4At (cs : List Char) : Option (Nat × (String × String)) :=
  let run := cs.takeWhile isDigitPy
  if run = [] then none else
  let d1 := run.take 3
  let rest := cs.drop d1.length
  let chunks := repChunks rest.length rest
  let rest2 := rest.drop (4 * chunks.length)
  let dec : Nat × List Char :=
    match rest2 with
    | '.' :: ds =>
      let dd := ds.takeWhile isDigitPy
      if 2 ≤ dd.length then (3, '.' :: dd.take 2) else (0, [])
    | _ => (0, [])
  let rest3 := rest2.drop dec.1
  let ws := rest3.takeWhile isSpacePy
  let suff := matchSuffixPrice4 (rest3.drop ws.length)
  let len := d1.length + 4 * chunks.length + dec.1 + ws.length + suff
  some (len, (String.mk (cs.take len), String.mk (d1 ++ chunks.flatten ++ dec.2)))

/-- Python `float()` on a stripped number group (digits with at most one
dot): `""` and `"."` raise, otherwise integer and fractional parts are
read exactly. -/
def parsePyFloat (g : List Char) : Option ℚ :=
  let s := g.filter (fun c => c ≠ ',')
  let intPart := s.takeWhile (fun c => c ≠ '.')
  match s.drop intPart.length with
  | [] => if intPart = [] then none else some (natOfDigits intPart)
  | '.' :: frac =>
    if intPart = [] && frac = [] then none
    else some ((natOfDigits intPart : ℚ) + (natOfDigits frac : ℚ) / 10 ^ frac.length)
  | _ => none

/-- Claims from one price pattern: every regex match, parsed with
`float()`, kept only when parsing succeeds and the value is at least
100. -/
def priceClaimsFrom (m : List Char → Option (Nat × (String × String)))
    (cs : List Char) : List Claim :=
  (findIter m cs).filterMap (fun p =>
    match parsePyFloat p.2.2.data with
    | some v => if 100 ≤ v then some ⟨"price", ClaimValue.price v, p.1, p.2.1⟩ else none
    | none => none)

/-- Claims from one mileage pattern: every regex match, with the group's
separators stripped and parsed as an integer. -/
def mileageClaimsFrom (m : List Char → Option (Nat × (String × String)))
    (cs : List Char) : List Claim :=
  (findIter m cs).map (fun p =>
    ⟨"mileage", ClaimValue.nat (natOfDigits (p.2.2.data.filter (fun c => c ≠ ','))),
      p.1, p.2.1⟩)

/-- `FactChecker.extract_claims`: stock-id, price (four patterns),
vehicle-mention and mileage (four patterns) claims, in that order, each
pattern scanned independently over the whole text. -/
def extract_claims (text : String) : List Claim :=
  let cs := text.data
  let stock_claims := (findIter matchStockAt cs).map (fun p =>
    ⟨"stock_id", ClaimValue.nat p.2.2, p.1, p.2.1⟩)
  let price_claims :=
    priceClaimsFrom matchPrice1At cs ++
    priceClaimsFrom (matchLabelNumAt ['p', 'r', 'i', 'c', 'e']) cs ++
    priceClaimsFrom (matchLabelNumAt ['c', 'o', 's', 't']) cs ++
    priceClaimsFrom matchPrice4At cs
  let vehicle_claims := (findIter matchVehicleAt cs).map (fun p =>
    ⟨"vehicle_mention", ClaimValue.vehicle p.2.2.1 p.2.2.2.1 p.2.2.2.2, p.1, p.2.1⟩)
  let mileage_claims :=
    mileageClaimsFrom (matchMileNumAt ['k', 'm'] false) cs ++
    mileageClaimsFrom (matchMileNumAt ['k', 'i', 'l', 'o', 'm', 'e', 't', 'e', 'r'] true) cs ++
    mileageClaimsFrom matchMileage3At cs ++
    mileageClaimsFrom (matchMileNumAt ['m', 'i', 'l', 'e'] true) cs
  stock_claims ++ price_claims ++ vehicle_claims ++ mileage_claims

end FactChecker

namespace FactChecker

/-- Default `self.price_tolerance` (0.1% relative tolerance). -/
def price_tolerance : ℚ := 0.001

/-- Hard-coded 1% relative tolerance used by `_verify_mileage`. -/
def mileage_tolerance : ℚ := 0.01

/-- Relative difference computed by `_verify_price` when a specific
record is in context: `abs(vehicle.price - claimed_price) / vehicle.price`. -/
def price_diff (vehicle_price claimed_price : ℚ) : ℚ :=
  |vehicle_price - claimed_price| / vehicle_price

/-- Validity bit of `_verify_price` against a specific record:
`price_diff <= self.price_tolerance` (the tolerance is a parameter here
so the default and any configured value are both covered). -/
def verify_price_valid (vehicle_price claimed_price tolerance : ℚ) : Bool :=
  decide (price_diff vehicle_price claimed_price ≤ tolerance)

/-- Validity bit of `_verify_mileage` against a specific record:
`abs(vehicle.km - claimed_mileage) / vehicle.km <= 0.01`. -/
def verify_mileage_valid (vehicle_km claimed_km : ℚ) : Bool :=
  decide (|vehicle_km - claimed_km| / vehicle_km ≤ mileage_tolerance)

/-- Result dict of a single claim verification, reduced to the fields the
claims below are about: the `valid` flag and the optional
`warning`/`error` messages. -/
structure VResult where
  valid : Bool
  warning : Option String
  error : Option String
deriving DecidableEq

/-- `FactChecker.verify_claim`: dispatch on the claim's `type` string.
The four database-backed verifiers (`_verify_stock_id`, `_verify_price`,
`_verify_vehicle_mention`, `_verify_mileage`) query external state, so
they are taken as parameters; an unrecognized type yields
`{"valid": True, "warning": "Unknown claim type: ..."}`. -/
def verify_claim (vs vp vv vm : Claim → VResult) (claim : Claim) : VResult :=
  if claim.ctype = "stock_id" then vs claim
  else if claim.ctype = "price" then vp claim
  else if claim.ctype = "vehicle_mention" then vv claim
  else if claim.ctype = "mileage" then vm claim
  else { valid := true, warning := some ("Unknown claim type: " ++ claim.ctype),
         error := none }

/-- Aggregate report returned by `verify_text`.  The two count keys are
absent (`none`) in the zero-claims branch of the Python dict. -/
structure VerificationReport where
  valid : Bool
  claims_found : Nat
  valid_claims : Option Nat
  invalid_claims : Option Nat
  verifications : List (VResult × Claim)
  summary : String
deriving DecidableEq

/-- The per-claim verification list: each claim's result paired with the
claim itself (`verification["claim"] = claim`). -/
def report_verifications (verify : Claim → VResult) (claims : List Claim) :
    List (VResult × Claim) :=
  claims.map (fun c => (verify c, c))

/-- `valid_count`: verifications whose `valid` flag is true. -/
def report_valid_count (verify : Claim → VResult) (claims : List Claim) : Nat :=
  ((report_verifications verify claims).filter (fun v => v.1.valid)).length

/-- `invalid_count`: verifications whose `valid` flag is false. -/
def report_invalid_count (verify : Claim → VResult) (claims : List Claim) : Nat :=
  ((report_verifications verify claims).filter (fun v => !v.1.valid)).length

/-- The non-empty branch of `verify_text`: verify every claim, count the
valid and invalid ones, and assemble the report
(`valid = invalid_count == 0`). -/
def build_report (verify : Claim → VResult) (claims : List Claim) : VerificationReport :=
  { valid := decide (report_invalid_count verify claims = 0),
    claims_found := claims.length,
    valid_claims := some (report_valid_count verify claims),
    invalid_claims := some (report_invalid_count verify claims),
    verifications := report_verifications verify claims,
    summary := "Found " ++ (toString claims.length ++ (" claims: " ++
      (toString (report_valid_count verify claims) ++ (" valid, " ++
        (toString (report_invalid_count verify claims) ++ " invalid"))))) }

/-- `FactChecker.verify_text`: extract all claims; with none, report
trivially valid with the explicit "nothing to verify" summary; otherwise
verify each claim and aggregate. -/
def verify_text (vs vp vv vm : Claim → VResult) (text : String) : VerificationReport :=
  if extract_claims text = [] then
    { valid := true, claims_found := 0, valid_claims := none, invalid_claims := none,
      verifications := [], summary := "No verifiable claims found in text" }
  else build_report (verify_claim vs vp vv vm) (extract_claims text)

/-- Constant verifier used to instantiate oracle parameters in witnesses. -/
def trivialOracle : Claim → VResult := fun _ => ⟨true, none, none⟩

end FactChecker

namespace FactChecker

/-- The relative difference is measured against the actual (record)
value, so it is invariant under rescaling both values. -/
lemma price_diff_scale (a p c : ℚ) (hc : 0 < c) :
    price_diff (c * a) (c * p) = price_diff a p := by
  unfold price_diff
  rw [show c * a - c * p = c * (a - p) by ring, abs_mul, abs_of_pos hc,
    mul_div_mul_left _ _ (ne_of_gt hc)]

/-- Characterization of the tolerance check when the actual value is
`P * (1 + ε)`: the accepted deviations are exactly `ε ≤ tol / (1 - tol)`,
not `ε ≤ tol`. -/
lemma price_diff_le_iff (P ε tol : ℚ) (hP : 0 < P) (hε : 0 ≤ ε) (htol1 : tol < 1) :
    (price_diff (P * (1 + ε)) P ≤ tol ↔ ε ≤ tol / (1 - tol)) := by
  have h1ε : (0 : ℚ) < 1 + ε := by linarith
  have hA : (0 : ℚ) < P * (1 + ε) := mul_pos hP h1ε
  have habs : |P * (1 + ε) - P| = P * ε := by
    rw [show P * (1 + ε) - P = P * ε by ring]
    exact abs_of_nonneg (mul_nonneg hP.le hε)
  unfold price_diff
  rw [habs, div_le_iff₀ hA, le_div_iff₀ (by linarith : (0 : ℚ) < 1 - tol)]
  constructor
  · intro h
    nlinarith [hP, h]
  · intro h
    nlinarith [hP, h]

end FactChecker

/-- C2 counterexample: with the default 0.1% tolerance, the actual price
1000 equals the claimed price 999 scaled by `1 + ε` for `ε = 1/999`,
which is strictly greater than the tolerance, yet the code judges the
claim valid (it divides by the actual price, not the claimed one), so
"invalid for any ε strictly greater" fails. -/
theorem C2_counterexample :
    (1000 : ℚ) = 999 * (1 + 1 / 999) ∧
    FactChecker.price_tolerance < 1 / 999 ∧
    FactChecker.verify_price_valid 1000 999 FactChecker.price_tolerance = true := by
  refine ⟨by norm_num, by norm_num [FactChecker.price_tolerance], ?_⟩
  rw [FactChecker.verify_price_valid, decide_eq_true_eq, FactChecker.price_diff,
    FactChecker.price_tolerance]
  norm_num

/-- C2 amended: price and mileage verification against a specific record
is relative with an inclusive boundary, but the deviation is measured
against the actual value: for an actual value `P·(1+ε)` and claimed value
`P`, the claim is valid iff `ε ≤ tol/(1-tol)` (equivalently
`|actual - claimed|/actual ≤ tol`); the comparison is scale-invariant
(never an absolute-difference comparison); the defaults are 0.001 for
price and 0.01 for mileage. -/
theorem C2_relative_tolerance_amended (P e tol : ℚ) (hP : 0 < P) (he : 0 ≤ e)
    (htol1 : tol < 1) :
    (FactChecker.verify_price_valid (P * (1 + e)) P tol = true ↔
      e ≤ tol / (1 - tol)) ∧
    (∀ c : ℚ, 0 < c → ∀ a p : ℚ,
      FactChecker.verify_price_valid (c * a) (c * p) tol =
        FactChecker.verify_price_valid a p tol) ∧
    (FactChecker.verify_mileage_valid (P * (1 + e)) P = true ↔
      e ≤ FactChecker.mileage_tolerance / (1 - FactChecker.mileage_tolerance)) ∧
    FactChecker.price_tolerance = 1 / 1000 ∧
    FactChecker.mileage_tolerance = 1 / 100 := by
  refine ⟨?_, ?_, ?_, by norm_num [FactChecker.price_tolerance],
    by norm_num [FactChecker.mileage_tolerance]⟩
  · rw [FactChecker.verify_price_valid, decide_eq_true_eq]
    exact FactChecker.price_diff_le_iff P e tol hP he htol1
  · intro c hc a p
    rw [FactChecker.verify_price_valid, FactChecker.verify_price_valid,
      FactChecker.price_diff_scale a p c hc]
  · rw [FactChecker.verify_mileage_valid, decide_eq_true_eq]
    have : |P * (1 + e) - P| / (P * (1 + e)) =
        FactChecker.price_diff (P * (1 + e)) P := rfl
    rw [this]
    exact FactChecker.price_diff_le_iff P e FactChecker.mileage_tolerance hP he
      (by norm_num [FactChecker.mileage_tolerance])

/-- Witness for the amended C2 at `P = 1000`, `ε = 0`, `tol = 1/1000`. -/
theorem C2_witness :
    (FactChecker.verify_price_valid (1000 * (1 + 0)) 1000 (1 / 1000) = true ↔
      (0 : ℚ) ≤ (1 / 1000) / (1 - 1 / 1000)) ∧
    (∀ c : ℚ, 0 < c → ∀ a p : ℚ,
      FactChecker.verify_price_valid (c * a) (c * p) (1 / 1000) =
        FactChecker.verify_price_valid a p (1 / 1000)) ∧
    (FactChecker.verify_mileage_valid (1000 * (1 + 0)) 1000 = true ↔
      (0 : ℚ) ≤ FactChecker.mileage_tolerance / (1 - FactChecker.mileage_tolerance)) ∧
    FactChecker.price_tolerance = 1 / 1000 ∧
    FactChecker.mileage_tolerance = 1 / 100 :=
  C2_relative_tolerance_amended 1000 0 (1 / 1000) (by norm_num) le_rfl (by norm_num)

namespace FactChecker

/-- The "Found ... " summary can never be the zero-claims summary: the
first characters already differ. -/
lemma found_summary_ne (s : String) :
    "Found " ++ s ≠ "No verifiable claims found in text" := by
  intro h
  have h2 : ("Found " ++ s : String).data.head? =
      ("No verifiable claims found in text" : String).data.head? :=
    congrArg (fun t : String => t.data.head?) h
  rw [show (("Found " ++ s : String)).data.head? = some 'F' by
    rw [String.data_append]; rfl] at h2
  rw [show ("No verifiable claims found in text" : String).data.head? = some 'N' from
    rfl] at h2
  exact absurd (Option.some.inj h2) (by decide)

/-- Splitting the invalid count across concatenation. -/
lemma report_invalid_count_append (verify : Claim → VResult) (l₁ l₂ : List Claim) :
    report_invalid_count verify (l₁ ++ l₂) =
      report_invalid_count verify l₁ + report_invalid_count verify l₂ := by
  simp [report_invalid_count, report_verifications, List.filter_append]

/-- Splitting the valid count across concatenation. -/
lemma report_valid_count_append (verify : Claim → VResult) (l₁ l₂ : List Claim) :
    report_valid_count verify (l₁ ++ l₂) =
      report_valid_count verify l₁ + report_valid_count verify l₂ := by
  simp [report_valid_count, report_verifications, List.filter_append]

end FactChecker

/-- C5: `verify_text`'s report is valid exactly when the invalid count is
zero; it carries the claim count, both per-outcome counts and the full
per-claim verification list whenever claims were found; and with zero
extracted claims it is trivially valid with the explicit "No verifiable
claims found in text" summary, which no non-empty report ever uses. -/
theorem C5_verify_text_aggregate
    (vs vp vv vm : FactChecker.Claim → FactChecker.VResult) (text : String) :
    ((FactChecker.verify_text vs vp vv vm text).valid = true ↔
      FactChecker.report_invalid_count (FactChecker.verify_claim vs vp vv vm)
        (FactChecker.extract_claims text) = 0) ∧
    (FactChecker.verify_text vs vp vv vm text).claims_found =
      (FactChecker.extract_claims text).length ∧
    (FactChecker.extract_claims text ≠ [] →
      (FactChecker.verify_text vs vp vv vm text).verifications =
        FactChecker.report_verifications (FactChecker.verify_claim vs vp vv vm)
          (FactChecker.extract_claims text) ∧
      (FactChecker.verify_text vs vp vv vm text).valid_claims =
        some (FactChecker.report_valid_count (FactChecker.verify_claim vs vp vv vm)
          (FactChecker.extract_claims text)) ∧
      (FactChecker.verify_text vs vp vv vm text).invalid_claims =
        some (FactChecker.report_invalid_count (FactChecker.verify_claim vs vp vv vm)
          (FactChecker.extract_claims text)) ∧
      (FactChecker.verify_text vs vp vv vm text).summary ≠
        "No verifiable claims found in text") ∧
    (FactChecker.extract_claims text = [] →
      (FactChecker.verify_text vs vp vv vm text).valid = true ∧
      (FactChecker.verify_text vs vp vv vm text).verifications = [] ∧
      (FactChecker.verify_text vs vp vv vm text).summary =
        "No verifiable claims found in text") := by
  by_cases hcl : FactChecker.extract_claims text = []
  · have hr : FactChecker.verify_text vs vp vv vm text =
        ⟨true, 0, none, none, [], "No verifiable claims found in text"⟩ := by
      rw [FactChecker.verify_text, if_pos hcl]
    refine ⟨?_, ?_, ?_, ?_⟩
    · rw [hr, hcl]
      simp [FactChecker.report_invalid_count, FactChecker.report_verifications]
    · rw [hr, hcl]
      rfl
    · intro h
      exact absurd hcl h
    · intro _
      rw [hr]
      exact ⟨rfl, rfl, rfl⟩
  · have hr : FactChecker.verify_text vs vp vv vm text =
        FactChecker.build_report (FactChecker.verify_claim vs vp vv vm)
          (FactChecker.extract_claims text) := by
      rw [FactChecker.verify_text, if_neg hcl]
    refine ⟨?_, ?_, ?_, ?_⟩
    · rw [hr]
      simp [FactChecker.build_report]
    · rw [hr]
      rfl
    · intro _
      rw [hr]
      exact ⟨rfl, rfl, rfl, FactChecker.found_summary_ne _⟩
    · intro h
      exact absurd h hcl

/-- Witness for C5 on a text with one extractable claim and the constant
always-valid verifier. -/
theorem C5_witness :
    (FactChecker.verify_text FactChecker.trivialOracle FactChecker.trivialOracle
      FactChecker.trivialOracle FactChecker.trivialOracle "stock 99999").claims_found =
      (FactChecker.extract_claims "stock 99999").length ∧
    (FactChecker.verify_text FactChecker.trivialOracle FactChecker.trivialOracle
      FactChecker.trivialOracle FactChecker.trivialOracle "stock 99999").summary ≠
      "No verifiable claims found in text" :=
  ⟨(C5_verify_text_aggregate FactChecker.trivialOracle FactChecker.trivialOracle
      FactChecker.trivialOracle FactChecker.trivialOracle "stock 99999").2.1,
    ((C5_verify_text_aggregate FactChecker.trivialOracle FactChecker.trivialOracle
      FactChecker.trivialOracle FactChecker.trivialOracle "stock 99999").2.2.1
      (by decide)).2.2.2⟩

/-- C10: a claim whose type is none of the four known kinds is verified
as `{"valid": True, "warning": "Unknown claim type: ..."}` with no error
field, so in any claim list it adds one to the valid count, leaves the
invalid count unchanged, and can never flip the aggregate report's
`valid` flag to false. -/
theorem C10_unknown_claim_type_valid
    (vs vp vv vm : FactChecker.Claim → FactChecker.VResult) (c : FactChecker.Claim)
    (h : c.ctype ≠ "stock_id" ∧ c.ctype ≠ "price" ∧
      c.ctype ≠ "vehicle_mention" ∧ c.ctype ≠ "mileage") :
    FactChecker.verify_claim vs vp vv vm c =
      ⟨true, some ("Unknown claim type: " ++ c.ctype), none⟩ ∧
    ∀ l₁ l₂ : List FactChecker.Claim,
      FactChecker.report_invalid_count (FactChecker.verify_claim vs vp vv vm)
          (l₁ ++ c :: l₂) =
        FactChecker.report_invalid_count (FactChecker.verify_claim vs vp vv vm)
          (l₁ ++ l₂) ∧
      FactChecker.report_valid_count (FactChecker.verify_claim vs vp vv vm)
          (l₁ ++ c :: l₂) =
        FactChecker.report_valid_count (FactChecker.verify_claim vs vp vv vm)
          (l₁ ++ l₂) + 1 ∧
      (FactChecker.build_report (FactChecker.verify_claim vs vp vv vm)
          (l₁ ++ c :: l₂)).valid =
        (FactChecker.build_report (FactChecker.verify_claim vs vp vv vm)
          (l₁ ++ l₂)).valid := by
  obtain ⟨h1, h2, h3, h4⟩ := h
  have hvc : FactChecker.verify_claim vs vp vv vm c =
      ⟨true, some ("Unknown claim type: " ++ c.ctype), none⟩ := by
    rw [FactChecker.verify_claim, if_neg h1, if_neg h2, if_neg h3, if_neg h4]
  refine ⟨hvc, ?_⟩
  intro l₁ l₂
  have hsingle_inv : FactChecker.report_invalid_count
      (FactChecker.verify_claim vs vp vv vm) [c] = 0 := by
    simp [FactChecker.report_invalid_count, FactChecker.report_verifications, hvc]
  have hsingle_val : FactChecker.report_valid_count
      (FactChecker.verify_claim vs vp vv vm) [c] = 1 := by
    simp [FactChecker.report_valid_count, FactChecker.report_verifications, hvc]
  have hinv : FactChecker.report_invalid_count (FactChecker.verify_claim vs vp vv vm)
      (l₁ ++ c :: l₂) =
      FactChecker.report_invalid_count (FactChecker.verify_claim vs vp vv vm)
        (l₁ ++ l₂) := by
    rw [show l₁ ++ c :: l₂ = l₁ ++ [c] ++ l₂ by simp,
      FactChecker.report_invalid_count_append, FactChecker.report_invalid_count_append,
      FactChecker.report_invalid_count_append, hsingle_inv]
    ring
  refine ⟨hinv, ?_, ?_⟩
  · rw [show l₁ ++ c :: l₂ = l₁ ++ [c] ++ l₂ by simp,
      FactChecker.report_valid_count_append, FactChecker.report_valid_count_append,
      FactChecker.report_valid_count_append, hsingle_val]
    ring
  · rw [FactChecker.build_report, FactChecker.build_report]
    simp only [hinv]

/-- Witness for C10 on a concrete claim of unknown type `"bogus"`. -/
theorem C10_witness :
    FactChecker.verify_claim FactChecker.trivialOracle FactChecker.trivialOracle
      FactChecker.trivialOracle FactChecker.trivialOracle
      ⟨"bogus", FactChecker.ClaimValue.nat 0, 0, "bogus"⟩ =
      ⟨true, some ("Unknown claim type: " ++ "bogus"), none⟩ ∧
    FactChecker.report_invalid_count
      (FactChecker.verify_claim FactChecker.trivialOracle FactChecker.trivialOracle
        FactChecker.trivialOracle FactChecker.trivialOracle)
      ([] ++ ⟨"bogus", FactChecker.ClaimValue.nat 0, 0, "bogus"⟩ :: []) =
      FactChecker.report_invalid_count
        (FactChecker.verify_claim FactChecker.trivialOracle FactChecker.trivialOracle
          FactChecker.trivialOracle FactChecker.trivialOracle) ([] ++ []) := by
  have hmain := C10_unknown_claim_type_valid FactChecker.trivialOracle
    FactChecker.trivialOracle FactChecker.trivialOracle FactChecker.trivialOracle
    ⟨"bogus", FactChecker.ClaimValue.nat 0, 0, "bogus"⟩
    (by refine ⟨?_, ?_, ?_, ?_⟩ <;> decide)
  exact ⟨hmain.1, (hmain.2 [] []).1⟩

namespace FactChecker

/-- Every payload produced by the scan loop comes from a successful
anchored match. -/
lemma mem_findIterAux {A : Type} (m : List Char → Option (Nat × A)) :
    ∀ (fuel : Nat) (cs : List Char) (pos : Nat) (pa : Nat × A),
      pa ∈ findIterAux m fuel cs pos → ∃ cs' n, m cs' = some (n, pa.2) := by
  intro fuel
  induction fuel with
  | zero =>
    intro cs pos pa h
    simp [findIterAux] at h
  | succ f ih =>
    intro cs pos pa h
    cases cs with
    | nil => simp [findIterAux] at h
    | cons ch ct =>
      have hstep : findIterAux m (f + 1) (ch :: ct) pos =
          match m (ch :: ct) with
          | some (len, a) =>
            (pos, a) :: findIterAux m f ((ch :: ct).drop (max len 1)) (pos + max len 1)
          | none => findIterAux m f ct (pos + 1) := rfl
      rw [hstep] at h
      cases hm : m (ch :: ct) with
      | none =>
        rw [hm] at h
        exact ih _ _ _ h
      | some la =>
        rw [hm] at h
        rcases la with ⟨len, a⟩
        rcases List.mem_cons.mp h with h1 | h1
        · refine ⟨ch :: ct, len, ?_⟩
          rw [hm, h1]
        · exact ih _ _ _ h1

/-- Every payload produced by `findIter` comes from a successful anchored
match. -/
lemma mem_findIter {A : Type} {m : List Char → Option (Nat × A)} {cs : List Char}
    {pa : Nat × A} (h : pa ∈ findIter m cs) : ∃ cs' n, m cs' = some (n, pa.2) :=
  mem_findIterAux m cs.length cs 0 pa h

/-- A successful vehicle-mention match always carries a year of the form
`20dd`, hence between 2000 and 2099. -/
lemma matchVehicleAt_year {cs : List Char} {n : Nat}
    {pay : String × String × String × Nat}
    (h : matchVehicleAt cs = some (n, pay)) :
    2000 ≤ pay.2.2.2 ∧ pay.2.2.2 ≤ 2099 := by
  rw [matchVehicleAt] at h
  split at h
  · exact absurd h (by simp)
  · dsimp only at h
    split at h
    · exact absurd h (by simp)
    · split at h
      · exact absurd h (by simp)
      · split at h
        · exact absurd h (by simp)
        · split at h
          · rename_i d3 d4 tail heq
            split at h
            · rename_i hdig
              have hpay := Option.some.inj h
              have hy := congrArg
                (fun q : Nat × (String × String × String × Nat) => q.2.2.2.2) hpay
              simp only [isDigitPy, Bool.and_eq_true, decide_eq_true_eq] at hdig
              simp only at hy
              omega
            · exact absurd h (by simp)
          · exact absurd h (by simp)

/-- Stock-id section claims are typed `"stock_id"`. -/
lemma stock_section_ctype {cs : List Char} {c : Claim}
    (h : c ∈ (findIter matchStockAt cs).map (fun p =>
      (⟨"stock_id", ClaimValue.nat p.2.2, p.1, p.2.1⟩ : Claim))) :
    c.ctype = "stock_id" := by
  rcases List.mem_map.mp h with ⟨p, _, rfl⟩
  rfl

/-- Price section claims are typed `"price"`. -/
lemma price_section_ctype {m : List Char → Option (Nat × (String × String))}
    {cs : List Char} {c : Claim} (h : c ∈ priceClaimsFrom m cs) :
    c.ctype = "price" := by
  rcases List.mem_filterMap.mp h with ⟨p, _, hp⟩
  rcases hpf : parsePyFloat p.2.2.data with _ | v
  · rw [hpf] at hp
    exact absurd hp (by simp)
  · rw [hpf] at hp
    have hred : (if (100 : ℚ) ≤ v then
        some (⟨"price", ClaimValue.price v, p.1, p.2.1⟩ : Claim) else none) =
        some c := hp
    by_cases hv : (100 : ℚ) ≤ v
    · rw [if_pos hv] at hred
      rw [← Option.some.inj hred]
    · rw [if_neg hv] at hred
      exact absurd hred (by simp)

/-- Mileage section claims are typed `"mileage"`. -/
lemma mileage_section_ctype {m : List Char → Option (Nat × (String × String))}
    {cs : List Char} {c : Claim} (h : c ∈ mileageClaimsFrom m cs) :
    c.ctype = "mileage" := by
  rcases List.mem_map.mp h with ⟨p, _, rfl⟩
  rfl

end FactChecker

/-- C7 counterexample: the text `"ford mustang 1999"` has the shape
`<word> <word> <4-digit year starting with 19>`, yet `extract_claims`
produces no vehicle-mention claim from it, because the code's pattern
only accepts years starting with `20`. -/
theorem C7_counterexample :
    (FactChecker.extract_claims "ford mustang 1999").filter
      (fun c => c.ctype = "vehicle_mention") = [] := by
  decide

/-- C7 amended: vehicle-mention extraction matches
`<word> <word> <4-digit year starting with 20>` (not 19), producing a
claim whose make and model are the two words case-folded and whose year
is the number: every extracted vehicle-mention claim has a year in
[2000, 2099], and a concrete 20xx mention is extracted as such. -/
theorem C7_vehicle_mention_year_amended (text : String) :
    (∀ c ∈ FactChecker.extract_claims text, c.ctype = "vehicle_mention" →
      ∃ mk md y, c.value = FactChecker.ClaimValue.vehicle mk md y ∧
        2000 ≤ y ∧ y ≤ 2099) ∧
    (FactChecker.extract_claims "ford Mustang 2024").filter
        (fun c => c.ctype = "vehicle_mention") =
      [⟨"vehicle_mention", FactChecker.ClaimValue.vehicle "ford" "mustang" 2024,
        0, "ford Mustang 2024"⟩] := by
  constructor
  · intro c hc hct
    rw [FactChecker.extract_claims] at hc
    rcases List.mem_append.mp hc with hc1 | hmil
    rcases List.mem_append.mp hc1 with hc2 | hveh
    rcases List.mem_append.mp hc2 with hstk | hpr
    · exact absurd (hct ▸ FactChecker.stock_section_ctype hstk) (by decide)
    · rcases List.mem_append.mp hpr with hp1 | hp2
      rcases List.mem_append.mp hp1 with hp3 | hp4
      rcases List.mem_append.mp hp3 with hp5 | hp6
      · exact absurd (hct ▸ FactChecker.price_section_ctype hp5) (by decide)
      · exact absurd (hct ▸ FactChecker.price_section_ctype hp6) (by decide)
      · exact absurd (hct ▸ FactChecker.price_section_ctype hp4) (by decide)
      · exact absurd (hct ▸ FactChecker.price_section_ctype hp2) (by decide)
    · rcases List.mem_map.mp hveh with ⟨p, hpmem, rfl⟩
      rcases FactChecker.mem_findIter hpmem with ⟨cs', n, hmatch⟩
      have hy := FactChecker.matchVehicleAt_year hmatch
      exact ⟨p.2.2.1, p.2.2.2.1, p.2.2.2.2, rfl, hy.1, hy.2⟩
    · rcases List.mem_append.mp hmil with hm1 | hm2
      rcases List.mem_append.mp hm1 with hm3 | hm4
      rcases List.mem_append.mp hm3 with hm5 | hm6
      · exact absurd (hct ▸ FactChecker.mileage_section_ctype hm5) (by decide)
      · exact absurd (hct ▸ FactChecker.mileage_section_ctype hm6) (by decide)
      · exact absurd (hct ▸ FactChecker.mileage_section_ctype hm4) (by decide)
      · exact absurd (hct ▸ FactChecker.mileage_section_ctype hm2) (by decide)
  · decide

/-- Witness for the amended C7 at a concrete extracted claim list. -/
theorem C7_witness :
    ∀ c ∈ FactChecker.extract_claims "honda civic 2019 x",
      c.ctype = "vehicle_mention" →
      ∃ mk md y, c.value = FactChecker.ClaimValue.vehicle mk md y ∧
        2000 ≤ y ∧ y ≤ 2099 :=
  (C7_vehicle_mention_year_amended "honda civic 2019 x").1

/-- C8: claim extraction is deterministic; identical input texts yield
identical claim lists. -/
theorem C8_extract_claims_deterministic (t₁ t₂ : String) (h : t₁ = t₂) :
    FactChecker.extract_claims t₁ = FactChecker.extract_claims t₂ := by
  rw [h]

/-- Witness for C8 on a concrete text. -/
theorem C8_witness :
    FactChecker.extract_claims "Toyota Corolla 2020 stock 12345 costs $18,500" =
      FactChecker.extract_claims "Toyota Corolla 2020 stock 12345 costs $18,500" :=
  C8_extract_claims_deterministic _ _ rfl

namespace Fuzzy

open FactChecker (isSpacePy)

/-- Python `str.lower()` (ASCII model). -/
def pyLower (s : String) : String := String.mk (s.data.map Char.toLower)

/-- Strip leading and trailing whitespace from a character list. -/
def stripChars (cs : List Char) : List Char :=
  ((cs.dropWhile isSpacePy).reverse.dropWhile isSpacePy).reverse

/-- Python `str.strip()` (whitespace, ASCII model). -/
def pyStrip (s : String) : String := String.mk (stripChars s.data)

/-- Whitespace splitter: accumulate the current token (reversed) and emit
it at each whitespace run or at the end. -/
def splitWsAux : List Char → List Char → List (List Char)
| [], acc => if acc = [] then [] else [acc.reverse]
| c :: cs, acc =>
  if isSpacePy c then
    if acc = [] then splitWsAux cs [] else acc.reverse :: splitWsAux cs []
  else splitWsAux cs (c :: acc)

/-- Whitespace-separated tokens of a string. -/
def tokens (cs : List Char) : List (List Char) := splitWsAux cs []

/-- First-occurrence deduplication (set of tokens, in a canonical
first-seen order). -/
def dedupAux : List (List Char) → List (List Char) → List (List Char)
| _, [] => []
| seen, t :: ts =>
  if t ∈ seen then dedupAux seen ts else t :: dedupAux (t :: seen) ts

/-- Token set of a string (deduplicated token list). -/
def tokenSet (cs : List Char) : List (List Char) := dedupAux [] (tokens cs)

/-- Indel (insertion/deletion) edit distance with explicit fuel; the fuel
argument only needs to cover the total length, and the fuel-exhausted
value is only reached when one side is empty, where it is exact. -/
def indelFuel : Nat → List Char → List Char → Nat
| 0, xs, ys => xs.length + ys.length
| _ + 1, [], ys => ys.length
| _ + 1, x :: xs, [] => (x :: xs).length
| f + 1, x :: xs, y :: ys =>
  if x = y then indelFuel f xs ys
  else 1 + min (indelFuel f xs (y :: ys)) (indelFuel f (x :: xs) ys)

/-- Indel distance between two character lists. -/
def indel (a b : List Char) : Nat := indelFuel (a.length + b.length) a b

/-- Normalized indel similarity scaled to 0-100 (100 for two empty
strings): `100 * (total - dist) / total` as one exact rational. -/
def normSim (a b : List Char) : ℚ :=
  if a.length + b.length = 0 then 100
  else mkRat (100 * ((a.length + b.length : Int) - indel a b)) (a.length + b.length)

/-- Join tokens with single spaces. -/
def joinSp (ts : List (List Char)) : List Char := List.intercalate [' '] ts

/-- Modelled from the spec: the `rapidfuzz` scorer is described as a
"token-set similarity ratio (order-independent character/token overlap
metric)" (the library itself is not part of this repository).  Both token
sets are split into the shared part and the two difference parts, and the
score is the best normalized indel similarity among the three pairings of
`sect`, `sect + diff1` and `sect + diff2`. -/
def tokenSetRatio (a b : List Char) : ℚ :=
  let ta := tokenSet a
  let tb := tokenSet b
  let sect := ta.filter (fun t => decide (t ∈ tb))
  let d1 := ta.filter (fun t => decide (t ∉ tb))
  let d2 := tb.filter (fun t => decide (t ∉ ta))
  max (normSim (joinSp sect) (joinSp (sect ++ d1)))
    (max (normSim (joinSp sect) (joinSp (sect ++ d2)))
      (normSim (joinSp (sect ++ d1)) (joinSp (sect ++ d2))))

/-- The string scorer used by the catalog fuzzy search. -/
def tokenSetRatioS (a b : String) : ℚ := tokenSetRatio a.data b.data

/-- Scan the remaining choices keeping the best-scoring one; a later
choice replaces the current best only with a strictly greater score, so
ties keep the earliest choice. -/
def bestFrom (scorer : String → String → ℚ) (q : String) :
    String × ℚ → List String → String × ℚ
| best, [] => best
| best, c :: cs =>
  bestFrom scorer q (if best.2 < scorer q c then (c, scorer q c) else best) cs

/-- Modelled from the spec: `rapidfuzz.process.extractOne` returns the
first choice attaining the maximal score, or `None` when every score is
below the cutoff (the library is not part of this repository). -/
def extractOne (scorer : String → String → ℚ) (q : String) (choices : List String)
    (cutoff : ℚ) : Option (String × ℚ) :=
  match choices with
  | [] => none
  | c :: cs =>
    let best := bestFrom scorer q (c, scorer q c) cs
    if cutoff ≤ best.2 then some best else none

/-- Default `threshold` of `fuzzy_search_make` / `fuzzy_search_model`. -/
def default_threshold : ℚ := 80

/-- `fuzzy_search_make` (and, with a differently sourced candidate list,
`fuzzy_search_model`): empty catalog means no match; otherwise the input
is lowercased and stripped, every candidate lowercased, the best match
above the cutoff selected, and the original-case catalog value whose
lowercase equals the winner returned. -/
def fuzzy_search_make (make_input : String) (threshold : ℚ)
    (all_makes : List String) : Option String :=
  if all_makes = [] then none
  else
    match extractOne tokenSetRatioS (pyStrip (pyLower make_input))
        (all_makes.map pyLower) threshold with
    | some best => all_makes.find? (fun mk => pyLower mk = best.1)
    | none => none

end Fuzzy

namespace Fuzzy

open FactChecker (isSpacePy)

lemma indelFuel_le : ∀ (f : Nat) (a b : List Char),
    indelFuel f a b ≤ a.length + b.length := by
  intro f
  induction f with
  | zero =>
    intro a b
    rw [indelFuel]
  | succ f ih =>
    intro a b
    cases a with
    | nil => rw [indelFuel]; simp
    | cons x xs =>
      cases b with
      | nil => rw [indelFuel]; simp
      | cons y ys =>
        rw [indelFuel]
        by_cases hxy : x = y
        · rw [if_pos hxy]
          have := ih xs ys
          simp only [List.length_cons]
          omega
        · rw [if_neg hxy]
          have h1 := ih xs (y :: ys)
          have h2 := ih (x :: xs) ys
          simp only [List.length_cons] at *
          omega

lemma indelFuel_self : ∀ (f : Nat) (a : List Char), a.length ≤ f →
    indelFuel f a a = 0 := by
  intro f
  induction f with
  | zero =>
    intro a ha
    have : a = [] := List.eq_nil_of_length_eq_zero (Nat.le_zero.mp ha)
    subst this
    rfl
  | succ f ih =>
    intro a ha
    cases a with
    | nil => rfl
    | cons x xs =>
      rw [indelFuel, if_pos rfl]
      refine ih xs ?_
      simp only [List.length_cons] at ha
      omega

lemma indel_self (a : List Char) : indel a a = 0 :=
  indelFuel_self _ a (by omega)

lemma normSim_eq_div (a b : List Char) (h : a.length + b.length ≠ 0) :
    normSim a b =
      (100 * ((a.length + b.length : ℚ) - indel a b)) / (a.length + b.length) := by
  rw [normSim, if_neg h, Rat.mkRat_eq_div]
  push_cast
  ring_nf

lemma normSim_self (a : List Char) : normSim a a = 100 := by
  by_cases h : a.length + a.length = 0
  · rw [normSim, if_pos h]
  · rw [normSim_eq_div a a h, indel_self]
    have hpos : (0 : ℚ) < (a.length + a.length : ℚ) := by
      have : 0 < a.length + a.length := Nat.pos_of_ne_zero h
      exact_mod_cast this
    push_cast
    field_simp

lemma normSim_le_100 (a b : List Char) : normSim a b ≤ 100 := by
  by_cases h : a.length + b.length = 0
  · rw [normSim, if_pos h]
  · rw [normSim_eq_div a b h]
    have hpos : (0 : ℚ) < (a.length + b.length : ℚ) := by
      have : 0 < a.length + b.length := Nat.pos_of_ne_zero h
      exact_mod_cast this
    rw [div_le_iff₀ hpos]
    have hd : (0 : ℚ) ≤ (indel a b : ℚ) := by positivity
    linarith

/-- A pair of strings with equal token sets scores exactly 100. -/
lemma tokenSetRatio_of_eq_tokenSet {a b : List Char}
    (h : tokenSet a = tokenSet b) : tokenSetRatio a b = 100 := by
  rw [tokenSetRatio]
  have hsect : (tokenSet a).filter (fun t => decide (t ∈ tokenSet b)) = tokenSet a := by
    rw [List.filter_eq_self]
    intro t ht
    rw [h] at ht
    exact decide_eq_true ht
  have hd1 : (tokenSet a).filter (fun t => decide (t ∉ tokenSet b)) = [] := by
    rw [List.filter_eq_nil_iff]
    intro t ht
    rw [h] at ht
    simp only [decide_eq_true_eq]
    exact not_not_intro ht
  have hd2 : (tokenSet b).filter (fun t => decide (t ∉ tokenSet a)) = [] := by
    rw [List.filter_eq_nil_iff]
    intro t ht
    rw [← h] at ht
    simp only [decide_eq_true_eq]
    exact not_not_intro ht
  simp only [hsect, hd1, hd2, List.append_nil, normSim_self]
  simp

lemma tokenSetRatio_le_100 (a b : List Char) : tokenSetRatio a b ≤ 100 := by
  rw [tokenSetRatio]
  simp only [max_le_iff]
  exact ⟨normSim_le_100 _ _, normSim_le_100 _ _, normSim_le_100 _ _⟩

lemma tokens_dropWhile (cs : List Char) :
    tokens (cs.dropWhile isSpacePy) = tokens cs := by
  induction cs with
  | nil => rfl
  | cons c cs ih =>
    by_cases hc : isSpacePy c = true
    · rw [List.dropWhile_cons_of_pos hc, ih]
      show splitWsAux cs [] = splitWsAux (c :: cs) []
      rw [show splitWsAux (c :: cs) [] = splitWsAux cs [] from by
        rw [splitWsAux, if_pos hc, if_pos rfl]]
    · rw [List.dropWhile_cons_of_neg (by simpa using hc)]

lemma splitWsAux_all_spaces {sp : List Char} (hsp : ∀ c ∈ sp, isSpacePy c = true) :
    ∀ acc, splitWsAux sp acc = if acc = [] then [] else [acc.reverse] := by
  induction sp with
  | nil => intro acc; rfl
  | cons c sp ih =>
    intro acc
    have hc : isSpacePy c = true := hsp c (List.mem_cons_self _ _)
    have hsp' : ∀ x ∈ sp, isSpacePy x = true :=
      fun x hx => hsp x (List.mem_cons_of_mem _ hx)
    rw [splitWsAux, if_pos hc]
    by_cases hacc : acc = []
    · rw [if_pos hacc, if_pos hacc]
      rw [ih hsp' []]
      rfl
    · rw [if_neg hacc, if_neg hacc]
      rw [ih hsp' []]
      rfl

lemma splitWsAux_append_spaces {sp : List Char}
    (hsp : ∀ c ∈ sp, isSpacePy c = true) :
    ∀ (cs : List Char) (acc : List Char),
      splitWsAux (cs ++ sp) acc = splitWsAux cs acc := by
  intro cs
  induction cs with
  | nil =>
    intro acc
    rw [List.nil_append, splitWsAux_all_spaces hsp acc]
    rfl
  | cons c cs ih =>
    intro acc
    rw [List.cons_append, splitWsAux, splitWsAux]
    by_cases hc : isSpacePy c = true
    · rw [if_pos hc, if_pos hc]
      by_cases hacc : acc = []
      · rw [if_pos hacc, if_pos hacc, ih]
      · rw [if_neg hacc, if_neg hacc, ih]
    · rw [if_neg hc, if_neg hc, ih]

/-- Stripping surrounding whitespace does not change the token list. -/
lemma tokens_stripChars (cs : List Char) : tokens (stripChars cs) = tokens cs := by
  rw [stripChars]
  set l := cs.dropWhile isSpacePy with hl
  have hdecomp : l = (l.reverse.dropWhile isSpacePy).reverse ++
      (l.reverse.takeWhile isSpacePy).reverse := by
    have h1 : l.reverse.takeWhile isSpacePy ++ l.reverse.dropWhile isSpacePy =
        l.reverse := List.takeWhile_append_dropWhile _ _
    calc l = l.reverse.reverse := (List.reverse_reverse l).symm
    _ = (l.reverse.takeWhile isSpacePy ++ l.reverse.dropWhile isSpacePy).reverse := by
        rw [h1]
    _ = (l.reverse.dropWhile isSpacePy).reverse ++
        (l.reverse.takeWhile isSpacePy).reverse := by
        rw [List.reverse_append]
  have hsp : ∀ c ∈ (l.reverse.takeWhile isSpacePy).reverse, isSpacePy c = true := by
    intro c hc
    exact List.mem_takeWhile_imp (List.mem_reverse.mp hc)
  calc tokens (l.reverse.dropWhile isSpacePy).reverse
      = splitWsAux ((l.reverse.dropWhile isSpacePy).reverse ++
          (l.reverse.takeWhile isSpacePy).reverse) [] :=
        (splitWsAux_append_spaces hsp _ []).symm
  _ = tokens l := by rw [← hdecomp]; rfl
  _ = tokens cs := tokens_dropWhile cs

/-- The normalized self-score of any catalog value is exactly 100: the
stripped, lowercased input has the same token set as the lowercased
candidate. -/
lemma self_score_100 (v : String) :
    tokenSetRatioS (pyStrip (pyLower v)) (pyLower v) = 100 := by
  rw [tokenSetRatioS]
  apply tokenSetRatio_of_eq_tokenSet
  show tokenSet (pyStrip (pyLower v)).data = tokenSet (pyLower v).data
  have h1 : (pyStrip (pyLower v)).data = stripChars (pyLower v).data := rfl
  rw [h1]
  rw [tokenSet, tokenSet, tokens_stripChars]

end Fuzzy

namespace Fuzzy

lemma bestFrom_score_eq (scorer : String → String → ℚ) (q : String) :
    ∀ (cs : List String) (best : String × ℚ), best.2 = scorer q best.1 →
      (bestFrom scorer q best cs).2 = scorer q (bestFrom scorer q best cs).1 := by
  intro cs
  induction cs with
  | nil => intro best h; exact h
  | cons c cs ih =>
    intro best h
    rw [bestFrom]
    by_cases hlt : best.2 < scorer q c
    · rw [if_pos hlt]
      exact ih _ rfl
    · rw [if_neg hlt]
      exact ih _ h

lemma bestFrom_fst_mem (scorer : String → String → ℚ) (q : String) :
    ∀ (cs : List String) (best : String × ℚ),
      (bestFrom scorer q best cs).1 = best.1 ∨ (bestFrom scorer q best cs).1 ∈ cs := by
  intro cs
  induction cs with
  | nil => intro best; exact Or.inl rfl
  | cons c cs ih =>
    intro best
    rw [bestFrom]
    by_cases hlt : best.2 < scorer q c
    · rw [if_pos hlt]
      rcases ih (c, scorer q c) with h | h
      · exact Or.inr (h ▸ List.mem_cons_self _ _)
      · exact Or.inr (List.mem_cons_of_mem _ h)
    · rw [if_neg hlt]
      rcases ih best with h | h
      · exact Or.inl h
      · exact Or.inr (List.mem_cons_of_mem _ h)

lemma le_bestFrom_init (scorer : String → String → ℚ) (q : String) :
    ∀ (cs : List String) (best : String × ℚ),
      best.2 ≤ (bestFrom scorer q best cs).2 := by
  intro cs
  induction cs with
  | nil => intro best; exact le_refl _
  | cons c cs ih =>
    intro best
    rw [bestFrom]
    by_cases hlt : best.2 < scorer q c
    · rw [if_pos hlt]
      exact le_trans (le_of_lt hlt) (ih (c, scorer q c))
    · rw [if_neg hlt]
      exact ih best

lemma le_bestFrom_mem (scorer : String → String → ℚ) (q : String) :
    ∀ (cs : List String) (best : String × ℚ) (c : String), c ∈ cs →
      scorer q c ≤ (bestFrom scorer q best cs).2 := by
  intro cs
  induction cs with
  | nil => intro best c hc; simp at hc
  | cons x xs ih =>
    intro best c hc
    rw [bestFrom]
    rcases List.mem_cons.mp hc with h | h
    · subst h
      by_cases hlt : best.2 < scorer q c
      · rw [if_pos hlt]
        exact le_bestFrom_init scorer q xs (c, scorer q c)
      · rw [if_neg hlt]
        exact le_trans (not_lt.mp hlt) (le_bestFrom_init scorer q xs best)
    · by_cases hlt : best.2 < scorer q x
      · rw [if_pos hlt]
        exact ih _ c h
      · rw [if_neg hlt]
        exact ih _ c h

lemma bestFrom_keep (scorer : String → String → ℚ) (q : String) :
    ∀ (cs : List String) (best : String × ℚ),
      (∀ c ∈ cs, scorer q c ≤ best.2) → bestFrom scorer q best cs = best := by
  intro cs
  induction cs with
  | nil => intro best _; rfl
  | cons c cs ih =>
    intro best h
    rw [bestFrom, if_neg (not_lt.mpr (h c (List.mem_cons_self _ _)))]
    exact ih best (fun x hx => h x (List.mem_cons_of_mem _ hx))

lemma bestFrom_append (scorer : String → String → ℚ) (q : String) :
    ∀ (xs ys : List String) (best : String × ℚ),
      bestFrom scorer q best (xs ++ ys) =
        bestFrom scorer q (bestFrom scorer q best xs) ys := by
  intro xs
  induction xs with
  | nil => intro ys best; rfl
  | cons x xs ih =>
    intro ys best
    rw [List.cons_append, bestFrom, bestFrom]
    exact ih ys _

lemma bestFrom_lt (scorer : String → String → ℚ) (q : String) (t : ℚ) :
    ∀ (cs : List String) (best : String × ℚ), best.2 < t →
      (∀ c ∈ cs, scorer q c < t) → (bestFrom scorer q best cs).2 < t := by
  intro cs
  induction cs with
  | nil => intro best hb _; exact hb
  | cons c cs ih =>
    intro best hb h
    rw [bestFrom]
    by_cases hlt : best.2 < scorer q c
    · rw [if_pos hlt]
      exact ih _ (h c (List.mem_cons_self _ _)) (fun x hx => h x (List.mem_cons_of_mem _ hx))
    · rw [if_neg hlt]
      exact ih best hb (fun x hx => h x (List.mem_cons_of_mem _ hx))

/-- Specification of a successful `extractOne`: the winner is a choice,
its score is its own, it clears the cutoff, and no choice scores
higher. -/
lemma extractOne_some_spec {scorer : String → String → ℚ} {q : String}
    {choices : List String} {cutoff : ℚ} {best : String × ℚ}
    (h : extractOne scorer q choices cutoff = some best) :
    best.1 ∈ choices ∧ best.2 = scorer q best.1 ∧ cutoff ≤ best.2 ∧
      ∀ c ∈ choices, scorer q c ≤ best.2 := by
  cases choices with
  | nil => exact absurd h (by simp [extractOne])
  | cons c cs =>
    rw [extractOne] at h
    by_cases hcut : cutoff ≤ (bestFrom scorer q (c, scorer q c) cs).2
    · rw [if_pos hcut] at h
      have hbest := Option.some.inj h
      subst hbest
      refine ⟨?_, ?_, hcut, ?_⟩
      · rcases bestFrom_fst_mem scorer q cs (c, scorer q c) with h1 | h1
        · exact h1 ▸ List.mem_cons_self _ _
        · exact List.mem_cons_of_mem _ h1
      · exact bestFrom_score_eq scorer q cs (c, scorer q c) rfl
      · intro x hx
        rcases List.mem_cons.mp hx with h1 | h1
        · exact h1 ▸ le_bestFrom_init scorer q cs (c, scorer q c)
        · exact le_bestFrom_mem scorer q cs (c, scorer q c) x h1
    · rw [if_neg hcut] at h
      exact absurd h (by simp)

/-- Specification of a failed `extractOne`: every choice is below the
cutoff. -/
lemma extractOne_none_spec {scorer : String → String → ℚ} {q : String}
    {choices : List String} {cutoff : ℚ}
    (h : extractOne scorer q choices cutoff = none) :
    ∀ c ∈ choices, scorer q c < cutoff := by
  cases choices with
  | nil => intro c hc; simp at hc
  | cons c cs =>
    rw [extractOne] at h
    by_cases hcut : cutoff ≤ (bestFrom scorer q (c, scorer q c) cs).2
    · rw [if_pos hcut] at h
      exact absurd h (by simp)
    · rw [if_neg hcut] at h
      have hb := not_le.mp hcut
      intro x hx
      rcases List.mem_cons.mp hx with h1 | h1
      · exact h1 ▸ lt_of_le_of_lt (le_bestFrom_init scorer q cs (c, scorer q c)) hb
      · exact lt_of_le_of_lt (le_bestFrom_mem scorer q cs (c, scorer q c) x h1) hb

/-- `find?` over a decomposed list where the prefix all fails the
predicate and the pivot satisfies it. -/
lemma find?_append_of_prefix_false {α : Type} {p : α → Bool} {l₁ l₂ : List α} {v : α}
    (h₁ : ∀ a ∈ l₁, p a = false) (hv : p v = true) :
    List.find? p (l₁ ++ v :: l₂) = some v := by
  induction l₁ with
  | nil =>
    rw [List.nil_append, List.find?_cons, hv]
  | cons a l₁ ih =>
    rw [List.cons_append, List.find?_cons, h₁ a (List.mem_cons_self _ _)]
    exact ih (fun x hx => h₁ x (List.mem_cons_of_mem _ hx))

end Fuzzy

namespace Fuzzy

/-- `extractOne` returns the first choice attaining the maximum when the
prefix scores strictly below it and the rest no higher. -/
lemma extractOne_first_hit (scorer : String → String → ℚ) (q : String)
    (xs ys : List String) (b : String) (cutoff t : ℚ)
    (hxs : ∀ c ∈ xs, scorer q c < t) (hb : scorer q b = t)
    (hys : ∀ c ∈ ys, scorer q c ≤ t) (hcut : cutoff ≤ t) :
    extractOne scorer q (xs ++ b :: ys) cutoff = some (b, t) := by
  cases xs with
  | nil =>
    rw [List.nil_append, extractOne]
    have hkeep : bestFrom scorer q (b, scorer q b) ys = (b, scorer q b) := by
      refine bestFrom_keep scorer q ys (b, scorer q b) ?_
      intro c hc
      show scorer q c ≤ scorer q b
      rw [hb]
      exact hys c hc
    rw [hkeep, hb, if_pos hcut]
  | cons x xs' =>
    rw [List.cons_append, extractOne,
      bestFrom_append scorer q xs' (b :: ys) (x, scorer q x)]
    have hb₁lt : (bestFrom scorer q (x, scorer q x) xs').2 < t := by
      refine bestFrom_lt scorer q t xs' (x, scorer q x) ?_ ?_
      · exact hxs x (List.mem_cons_self _ _)
      · intro c hc
        exact hxs c (List.mem_cons_of_mem _ hc)
    rw [bestFrom]
    have hif : (bestFrom scorer q (x, scorer q x) xs').2 < scorer q b := by
      rw [hb]
      exact hb₁lt
    rw [if_pos hif]
    have hkeep : bestFrom scorer q (b, scorer q b) ys = (b, scorer q b) := by
      refine bestFrom_keep scorer q ys (b, scorer q b) ?_
      intro c hc
      show scorer q c ≤ scorer q b
      rw [hb]
      exact hys c hc
    rw [hkeep, hb, if_pos hcut]

lemma tokenSetRatioS_le_100 (a b : String) : tokenSetRatioS a b ≤ 100 :=
  tokenSetRatio_le_100 a.data b.data

end Fuzzy

/-- C6: the catalog fuzzy matcher lowercases and strips the input,
lowercases every candidate, scores candidates with the token-set
similarity, and returns a best-scoring catalog value only when its score
reaches the threshold (default 80); when no candidate reaches the
threshold, and always on an empty candidate list, it reports no match
(an `Option.none`, never an exception). -/
theorem C6_fuzzy_matcher_contract (input : String) (threshold : ℚ)
    (makes : List String) :
    (makes = [] → Fuzzy.fuzzy_search_make input threshold makes = none) ∧
    (∀ r, Fuzzy.fuzzy_search_make input threshold makes = some r →
      r ∈ makes ∧
      threshold ≤ Fuzzy.tokenSetRatioS (Fuzzy.pyStrip (Fuzzy.pyLower input))
        (Fuzzy.pyLower r) ∧
      ∀ m ∈ makes,
        Fuzzy.tokenSetRatioS (Fuzzy.pyStrip (Fuzzy.pyLower input)) (Fuzzy.pyLower m) ≤
        Fuzzy.tokenSetRatioS (Fuzzy.pyStrip (Fuzzy.pyLower input)) (Fuzzy.pyLower r)) ∧
    (Fuzzy.fuzzy_search_make input threshold makes = none →
      ∀ m ∈ makes,
        Fuzzy.tokenSetRatioS (Fuzzy.pyStrip (Fuzzy.pyLower input)) (Fuzzy.pyLower m) <
          threshold) ∧
    Fuzzy.default_threshold = 80 := by
  refine ⟨?_, ?_, ?_, rfl⟩
  · intro h
    rw [Fuzzy.fuzzy_search_make, if_pos h]
  · intro r hr
    by_cases hmk : makes = []
    · rw [Fuzzy.fuzzy_search_make, if_pos hmk] at hr
      exact absurd hr (by simp)
    · rw [Fuzzy.fuzzy_search_make, if_neg hmk] at hr
      cases hx : Fuzzy.extractOne Fuzzy.tokenSetRatioS
          (Fuzzy.pyStrip (Fuzzy.pyLower input)) (makes.map Fuzzy.pyLower) threshold with
      | none =>
        rw [hx] at hr
        exact absurd hr (by simp)
      | some best =>
        rw [hx] at hr
        have hspec := Fuzzy.extractOne_some_spec hx
        have hrmem : r ∈ makes := List.mem_of_find?_eq_some hr
        have hpr : Fuzzy.pyLower r = best.1 := by
          have := List.find?_some hr
          exact of_decide_eq_true this
        refine ⟨hrmem, ?_, ?_⟩
        · rw [hpr, ← hspec.2.1]
          exact hspec.2.2.1
        · intro m hm
          rw [hpr, ← hspec.2.1]
          exact hspec.2.2.2 (Fuzzy.pyLower m) (List.mem_map.mpr ⟨m, hm, rfl⟩)
  · intro h m hm
    by_cases hmk : makes = []
    · subst hmk
      simp at hm
    · rw [Fuzzy.fuzzy_search_make, if_neg hmk] at h
      cases hx : Fuzzy.extractOne Fuzzy.tokenSetRatioS
          (Fuzzy.pyStrip (Fuzzy.pyLower input)) (makes.map Fuzzy.pyLower) threshold with
      | none =>
        exact Fuzzy.extractOne_none_spec hx (Fuzzy.pyLower m)
          (List.mem_map.mpr ⟨m, hm, rfl⟩)
      | some best =>
        rw [hx] at h
        have hspec := Fuzzy.extractOne_some_spec hx
        rcases List.mem_map.mp hspec.1 with ⟨m₀, hm₀, hm₀eq⟩
        have hall := List.find?_eq_none.mp h m₀ hm₀
        rw [hm₀eq] at hall
        simp at hall

/-- Witness for C6 on a concrete catalog: a misspelled query matched at
the default threshold. -/
theorem C6_witness :
    (([] : List String) = [] →
      Fuzzy.fuzzy_search_make "Toyta" 80 ([] : List String) = none) ∧
    (∀ r, Fuzzy.fuzzy_search_make "Toyta" 80 ([] : List String) = some r →
      r ∈ ([] : List String) ∧
      (80 : ℚ) ≤ Fuzzy.tokenSetRatioS (Fuzzy.pyStrip (Fuzzy.pyLower "Toyta"))
        (Fuzzy.pyLower r) ∧
      ∀ m ∈ ([] : List String),
        Fuzzy.tokenSetRatioS (Fuzzy.pyStrip (Fuzzy.pyLower "Toyta")) (Fuzzy.pyLower m) ≤
        Fuzzy.tokenSetRatioS (Fuzzy.pyStrip (Fuzzy.pyLower "Toyta")) (Fuzzy.pyLower r)) ∧
    (Fuzzy.fuzzy_search_make "Toyta" 80 ([] : List String) = none →
      ∀ m ∈ ([] : List String),
        Fuzzy.tokenSetRatioS (Fuzzy.pyStrip (Fuzzy.pyLower "Toyta")) (Fuzzy.pyLower m) <
          80) ∧
    Fuzzy.default_threshold = 80 :=
  C6_fuzzy_matcher_contract "Toyta" 80 []

/-- C9 counterexample: with the catalog `["TOYOTA", "Toyota"]`, fuzzy
matching the canonical value `"Toyota"` returns `"TOYOTA"` — a different
catalog entry that ties at the maximum score — so "never a different
candidate" fails. -/
theorem C9_counterexample :
    Fuzzy.fuzzy_search_make "Toyota" Fuzzy.default_threshold ["TOYOTA", "Toyota"] =
      some "TOYOTA" ∧ ("TOYOTA" : String) ≠ "Toyota" := by
  constructor
  · decide
  · decide

/-- C9 amended: fuzzy-matching a canonical catalog value at the default
threshold never reports no-match, and the returned candidate attains the
maximum score 100; it is the canonical value itself whenever no earlier
catalog entry also attains 100 (ties are resolved toward the first
candidate in catalog order). -/
theorem C9_fuzzy_idempotent_amended (v : String) (l₁ l₂ : List String) :
    (∃ r, Fuzzy.fuzzy_search_make v Fuzzy.default_threshold (l₁ ++ v :: l₂) = some r ∧
      r ∈ l₁ ++ v :: l₂ ∧
      Fuzzy.tokenSetRatioS (Fuzzy.pyStrip (Fuzzy.pyLower v)) (Fuzzy.pyLower r) = 100) ∧
    ((∀ m ∈ l₁,
        Fuzzy.tokenSetRatioS (Fuzzy.pyStrip (Fuzzy.pyLower v)) (Fuzzy.pyLower m) < 100) →
      Fuzzy.fuzzy_search_make v Fuzzy.default_threshold (l₁ ++ v :: l₂) = some v) := by
  have hne : l₁ ++ v :: l₂ ≠ [] := by simp
  have hself := Fuzzy.self_score_100 v
  constructor
  · rw [Fuzzy.fuzzy_search_make, if_neg hne]
    cases hx : Fuzzy.extractOne Fuzzy.tokenSetRatioS
        (Fuzzy.pyStrip (Fuzzy.pyLower v)) ((l₁ ++ v :: l₂).map Fuzzy.pyLower)
        Fuzzy.default_threshold with
    | none =>
      have hvm : Fuzzy.pyLower v ∈ (l₁ ++ v :: l₂).map Fuzzy.pyLower :=
        List.mem_map.mpr ⟨v, by simp, rfl⟩
      have := Fuzzy.extractOne_none_spec hx (Fuzzy.pyLower v) hvm
      rw [hself] at this
      exact absurd this (by rw [Fuzzy.default_threshold]; norm_num)
    | some best =>
      have hspec := Fuzzy.extractOne_some_spec hx
      have hb100 : best.2 = 100 := by
        have hle : best.2 ≤ 100 := by
          rw [hspec.2.1]
          exact Fuzzy.tokenSetRatioS_le_100 _ _
        have hge : (100 : ℚ) ≤ best.2 := by
          have hvm : Fuzzy.pyLower v ∈ (l₁ ++ v :: l₂).map Fuzzy.pyLower :=
            List.mem_map.mpr ⟨v, by simp, rfl⟩
          have := hspec.2.2.2 (Fuzzy.pyLower v) hvm
          rw [hself] at this
          exact this
        exact le_antisymm hle hge
      rcases List.mem_map.mp hspec.1 with ⟨m₀, hm₀, hm₀eq⟩
      have hfind : ((l₁ ++ v :: l₂).find?
          (fun mk => Fuzzy.pyLower mk = best.1)).isSome := by
        rw [List.find?_isSome]
        exact ⟨m₀, hm₀, decide_eq_true hm₀eq⟩
      rcases Option.isSome_iff_exists.mp hfind with ⟨r, hr⟩
      refine ⟨r, hr, List.mem_of_find?_eq_some hr, ?_⟩
      have hfound := List.find?_some hr
      have hpr : Fuzzy.pyLower r = best.1 := of_decide_eq_true hfound
      rw [hpr, ← hspec.2.1, hb100]
  · intro hlt
    rw [Fuzzy.fuzzy_search_make, if_neg hne]
    have hmap : (l₁ ++ v :: l₂).map Fuzzy.pyLower =
        l₁.map Fuzzy.pyLower ++ Fuzzy.pyLower v :: l₂.map Fuzzy.pyLower := by
      rw [List.map_append, List.map_cons]
    have hxs : ∀ c ∈ l₁.map Fuzzy.pyLower,
        Fuzzy.tokenSetRatioS (Fuzzy.pyStrip (Fuzzy.pyLower v)) c < 100 := by
      intro c hc
      rcases List.mem_map.mp hc with ⟨m, hm, rfl⟩
      exact hlt m hm
    have hys : ∀ c ∈ l₂.map Fuzzy.pyLower,
        Fuzzy.tokenSetRatioS (Fuzzy.pyStrip (Fuzzy.pyLower v)) c ≤ 100 := by
      intro c _
      exact Fuzzy.tokenSetRatioS_le_100 _ _
    have hx : Fuzzy.extractOne Fuzzy.tokenSetRatioS
        (Fuzzy.pyStrip (Fuzzy.pyLower v)) ((l₁ ++ v :: l₂).map Fuzzy.pyLower)
        Fuzzy.default_threshold = some (Fuzzy.pyLower v, 100) := by
      rw [hmap]
      exact Fuzzy.extractOne_first_hit _ _ _ _ _ _ _ hxs hself hys
        (by rw [Fuzzy.default_threshold]; norm_num)
    rw [hx]
    have hpref : ∀ m ∈ l₁,
        (fun mk => decide (Fuzzy.pyLower mk = Fuzzy.pyLower v)) m = false := by
      intro m hm
      refine decide_eq_false ?_
      intro heq
      have : Fuzzy.tokenSetRatioS (Fuzzy.pyStrip (Fuzzy.pyLower v))
          (Fuzzy.pyLower m) = 100 := by
        rw [heq]
        exact hself
      have hcontra := hlt m hm
      rw [this] at hcontra
      exact absurd hcontra (lt_irrefl _)
    exact Fuzzy.find?_append_of_prefix_false hpref (by simp)

/-- Witness for the amended C9 on a singleton catalog. -/
theorem C9_witness :
    Fuzzy.fuzzy_search_make "Honda" Fuzzy.default_threshold ([] ++ "Honda" :: []) =
      some "Honda" :=
  (C9_fuzzy_idempotent_amended "Honda" [] []).2 (by intro m hm; simp at hm)
